import Mathlib

/-!
Verification of the constraint-validation and desugaring components of the
roc compiler front end, shallowly embedded in Lean.

Sources embedded:
  * `compiler/can/src/constraint.rs` (constraint model and validation)
  * `crates/compiler/can/src/desugar.rs` (expression desugaring)

Rust panics (`panic!`, `internal_error!`, `unreachable!`, `todo!`) are
modelled as `Except.error` / `Option.none` results; everything else is a
direct translation of the source.
-/

set_option maxHeartbeats 2000000
set_option maxRecDepth 16000

namespace Roc

/-! ## Constraint model (`compiler/can/src/constraint.rs`)

Modelled from the spec: the structural `Type` term of `roc_types` is not part
of the extracted sources; validation consumes a type only through its
`variables_detail()` query, "free variables, split into type/lambda-set/
recursion buckets" (spec section 6), so a type is embedded as the detail it
exposes.  Variables are opaque numeric identifiers.  The `MutSet`s of the
source are embedded as lists with set-like insertion (`List.insert`).
-/

@[simp] theorem except_error_bind {ε α β : Type} (e : ε) (f : α → Except ε β) :
    (Except.error e >>= f) = Except.error e := rfl

@[simp] theorem except_ok_bind {ε α β : Type} (a : α) (f : α → Except ε β) :
    (Except.ok a >>= f) = f a := rfl

structure VariableDetail where
  type_variables : List Nat
  lambda_set_variables : List Nat
  recursion_variables : List Nat
deriving Repr, DecidableEq

/-- Modelled from the spec: a structural type term exposing its free-variable
detail; `variables_detail` is the only query validation performs on it. -/
structure Ty where
  detail : VariableDetail
deriving Repr, DecidableEq

def Ty.variables_detail (t : Ty) : VariableDetail := t.detail

/-- Type `Constraint` from `constraint.rs`.  `Eq` carries `(Type, Expected<Type>,
Category, Region)` in the source; the category and region are never read by
validation and `Expected::get_type_ref` projects the expected type, so the
two type terms are kept.  `Store` carries `(Type, Variable, &'static str,
u32)`; the last two fields (file/line of the store site) are never read by
validation.  `Lookup` carries a symbol, expectation and region, none of which
validation reads.  `Let` inlines the `LetConstraint` box. -/
inductive Constraint where
  | eq : Ty → Ty → Constraint
  | store : Ty → Nat → Constraint
  | lookup : Constraint
  | pattern : Ty → Ty → Constraint
  | true_ : Constraint
  | saveTheEnvironment : Constraint
  | let_ (rigid_vars : List Nat) (flex_vars : List Nat)
      (def_types : List (Nat × Ty))
      (defs_constraint : Constraint) (ret_constraint : Constraint) : Constraint
  | and : List Constraint → Constraint
deriving Repr

/-- Type `Declared` from `constraint.rs` (the declared-scope sets carried down the
walk). -/
structure Declared where
  rigid_vars : List Nat
  flex_vars : List Nat
deriving Repr, DecidableEq

def Declared.empty : Declared := ⟨[], []⟩

/-- First loop of `subtract` in `constraint.rs`: ordinary type variables not declared (as either
rigid or flex) are accumulated. -/
def subtractTypeVars (declared : Declared) : List Nat → List Nat → List Nat
  | [], acc => acc
  | v :: vs, acc =>
    if v ∈ declared.rigid_vars ∨ v ∈ declared.flex_vars then
      subtractTypeVars declared vs acc
    else
      subtractTypeVars declared vs (acc.insert v)

/-- Second loop of `subtract`: lambda set variables are always flex; one found
declared as rigid is a hard failure (`panic!`), one not declared flex is
accumulated. -/
def subtractLambdaSetVars (declared : Declared) :
    List Nat → List Nat → Except String (List Nat)
  | [], acc => .ok acc
  | v :: vs, acc =>
    if v ∈ declared.rigid_vars then
      .error "lambda set variable is declared as rigid"
    else if v ∈ declared.flex_vars then
      subtractLambdaSetVars declared vs acc
    else
      subtractLambdaSetVars declared vs (acc.insert v)

/-- Third loop of `subtract`: recursion variables should always be rigid; one
found declared as flex is a hard failure (`panic!`), one not declared rigid is
accumulated. -/
def subtractRecursionVars (declared : Declared) :
    List Nat → List Nat → Except String (List Nat)
  | [], acc => .ok acc
  | v :: vs, acc =>
    if v ∈ declared.flex_vars then
      .error "recursion variable is declared as flex"
    else if v ∈ declared.rigid_vars then
      subtractRecursionVars declared vs acc
    else
      subtractRecursionVars declared vs (acc.insert v)

/-- Function `subtract` from `constraint.rs`: remove declared variables from a detail,
accumulating the unbound remainder into `accum`, and eagerly enforce the two
role invariants. -/
def subtract (declared : Declared) (detail : VariableDetail)
    (accum : VariableDetail) : Except String VariableDetail := do
  let tvs := subtractTypeVars declared detail.type_variables accum.type_variables
  let lvs ← subtractLambdaSetVars declared detail.lambda_set_variables
    accum.lambda_set_variables
  let rvs ← subtractRecursionVars declared detail.recursion_variables
    accum.recursion_variables
  .ok ⟨tvs, lvs, rvs⟩

mutual

/-- Function `validate_help` from `constraint.rs`.  The `&mut accum` of the source is
threaded explicitly. -/
def validate_help (constraint : Constraint) (declared : Declared)
    (accum : VariableDetail) : Except String VariableDetail :=
  match constraint with
  | .true_ | .saveTheEnvironment | .lookup => .ok accum
  | .store typ var => do
    let accum ← subtract declared typ.variables_detail accum
    if var ∈ declared.flex_vars then
      .ok accum
    else
      .ok { accum with type_variables := accum.type_variables.insert var }
  | .eq typ expected => do
    let accum ← subtract declared typ.variables_detail accum
    subtract declared expected.variables_detail accum
  | .pattern typ expected => do
    let accum ← subtract declared typ.variables_detail accum
    subtract declared expected.variables_detail accum
  | .let_ rigid_vars flex_vars _def_types defs_constraint ret_constraint => do
    let declared' : Declared :=
      { rigid_vars := rigid_vars.foldl (fun s v => s.insert v) declared.rigid_vars
        flex_vars := flex_vars.foldl (fun s v => s.insert v) declared.flex_vars }
    let accum ← validate_help defs_constraint declared' accum
    validate_help ret_constraint declared' accum
  | .and inner => validate_help_list inner declared accum

/-- List walk for the `And` arm: the `for c in inner` loop of the `And` arm of `validate_help`. -/
def validate_help_list (cs : List Constraint) (declared : Declared)
    (accum : VariableDetail) : Except String VariableDetail :=
  match cs with
  | [] => .ok accum
  | c :: rest => do
    let accum ← validate_help c declared accum
    validate_help_list rest declared accum

end

/-- Method `Constraint::validate` from `constraint.rs`: walk from an initially empty
declared scope; any non-empty unbound bucket at the end is a hard failure
(`panic!`). -/
def Constraint.validate (c : Constraint) : Except String Bool := do
  let unbound ← validate_help c Declared.empty ⟨[], [], []⟩
  if unbound.type_variables ≠ [] then
    .error "found unbound type variables"
  else if unbound.lambda_set_variables ≠ [] then
    .error "found unbound lambda set variables"
  else if unbound.recursion_variables ≠ [] then
    .error "found unbound recursion variables"
  else
    .ok true

/-- A type whose detail holds a single ordinary type variable. -/
def tyVar (v : Nat) : Ty := ⟨⟨[v], [], []⟩⟩

/-- A type whose detail holds a single lambda-set variable. -/
def tyLambda (v : Nat) : Ty := ⟨⟨[], [v], []⟩⟩

/-- A type whose detail holds a single recursion variable. -/
def tyRec (v : Nat) : Ty := ⟨⟨[], [], [v]⟩⟩

/-- A type with no free variables at all. -/
def tyEmpty : Ty := ⟨⟨[], [], []⟩⟩

/-! ## Desugaring (`crates/compiler/can/src/desugar.rs`)

The surface expression tree of `roc_parse::ast` as consumed and produced by
`desugar.rs`.  Arena references become plain nesting; `Collection<T>` and
slices become `List`; string slices become `String`.  Payload fields that
`desugar.rs` moves around unchanged (spaces, comments, type annotations,
bad-ident details) are kept as simple placeholder data so that the
structure-preserving behaviour remains visible.
-/

/-- Source region (byte span) from `roc_region`; `stop` is the exclusive end
offset (`end` in the source). -/
structure Region where
  start : Nat
  stop : Nat
deriving Repr, DecidableEq

/-- Constructor `Region::span_across`. -/
def Region.span_across (l r : Region) : Region := ⟨l.start, r.stop⟩

/-- Type `Loc` from `roc_region`: a value tagged with its source region. -/
structure Loc (α : Type) where
  region : Region
  value : α
deriving Repr, DecidableEq

/-- Constructor `Loc::at`. -/
def Loc.at {α : Type} (region : Region) (value : α) : Loc α := ⟨region, value⟩

/-- Binary operators from `roc_module::called_via::BinOp`.  The source's
`IsOpaqueType` is rendered `isOpaqType` here. -/
inductive BinOp where
  | caret | star | slash | doubleSlash | percent
  | plus | minus
  | equals | notEquals | lessThan | greaterThan | lessThanOrEq | greaterThanOrEq
  | and | or
  | pizza
  | assignment | isAliasType | isOpaqType | backpassing
deriving Repr, DecidableEq

/-- Associativity from `roc_module::called_via`. -/
inductive Associativity where
  | leftAssociative | rightAssociative | nonAssociative
deriving Repr, DecidableEq

/-- Modelled from the spec: the per-operator precedence rank of
`roc_module::called_via` (not under `src/`).  Spec section 3: "a closed set
of symbols with a total order by precedence (integer rank)"; sections 4.1.1
and 8 fix the relative ranks exercised here (multiply binds tighter than
add, plus and minus share a rank, the comparison operators share a rank).
The four structural operators never reach a precedence comparison. -/
def BinOp.precedence : BinOp → Nat
  | .caret => 7
  | .star | .slash | .doubleSlash | .percent => 6
  | .plus | .minus => 5
  | .equals | .notEquals | .lessThan | .greaterThan
  | .lessThanOrEq | .greaterThanOrEq => 4
  | .and => 3
  | .or => 2
  | .pizza => 1
  | .assignment | .isAliasType | .isOpaqType | .backpassing => 0

/-- Modelled from the spec: the per-operator associativity of
`roc_module::called_via` (not under `src/`).  Spec sections 3, 4.1.1 and 8:
arithmetic and pipe operators are left-associative, boolean/power operators
are right-associative, comparisons are non-associative; no two operators
share precedence while differing in associativity.  The four structural
operators never reach an associativity check. -/
def BinOp.associativity : BinOp → Associativity
  | .pizza | .star | .slash | .doubleSlash | .percent | .plus | .minus =>
    .leftAssociative
  | .and | .or | .caret => .rightAssociative
  | .equals | .notEquals | .lessThan | .greaterThan
  | .lessThanOrEq | .greaterThanOrEq => .nonAssociative
  | .assignment | .isAliasType | .isOpaqType | .backpassing => .nonAssociative

/-- Modelled from the spec: `next_op.value.cmp(&stack_op.value)` — the order
on `BinOp` is the total order by precedence rank (spec sections 3 and
4.1.1). -/
def BinOp.cmp (a b : BinOp) : Ordering := compare a.precedence b.precedence

/-- Unary operators from `roc_module::called_via::UnaryOp`. -/
inductive UnaryOp where
  | negate | not
deriving Repr, DecidableEq

/-- Call provenance from `roc_module::called_via::CalledVia` (the variants
`desugar.rs` reads or writes). -/
inductive CalledVia where
  | space
  | binOp (op : BinOp)
  | unaryOp (op : UnaryOp)
  | stringInterpolation
  | recordBuilder
  | bangSuffix
deriving Repr, DecidableEq

/-- Number base of `NonBase10Int` literals. -/
inductive Base where
  | octal | binary | hex | decimal
deriving Repr, DecidableEq

/-- Type `Accessor` from `roc_parse::ast` (payload of `AccessorFunction`). -/
inductive Accessor where
  | recordField (s : String)
  | tupleIndex (s : String)
deriving Repr, DecidableEq

/-- Placeholder for `roc_parse::ast::TypeAnnotation`: annotations pass
through `desugar.rs` untouched (`ann @ Annotation(_, _) => *ann`), so their
internal structure is irrelevant here. -/
structure TypeAnn where
  tag : Nat
deriving Repr, DecidableEq

/-- Placeholder for space/comment payloads (`&[CommentOrNewline]`), which
desugaring drops or passes through without inspection. -/
def Spaces : Type := List String

deriving instance Repr, DecidableEq for Spaces

mutual

/-- Type `Expr` from `roc_parse::ast` (the variants handled by
`desugar_expr`).  The source's `OpaqueRef` is rendered `opaqRef` here, and
`Defs` keeps only the value definitions (type definitions inside a `Defs`
node are never touched by `desugar_defs_node_values` or
`unwrap_suffixed_expression`, which look only at `.err()` value defs). -/
inductive Expr where
  | float (s : String)
  | num (s : String)
  | nonBase10Int (s : String) (base : Base) (isNegative : Bool)
  | str (lit : StrLiteral)
  | singleQuote (s : String)
  | recordAccess (structVal : Expr) (field : String)
  | accessorFunction (a : Accessor)
  | tupleAccess (structVal : Expr) (index : String)
  | list (items : List (Loc Expr))
  | recordUpdate (update : Loc Expr) (fields : List (Loc AssignedField))
  | record (fields : List (Loc AssignedField))
  | tuple (items : List (Loc Expr))
  | recordBuilder (fields : List (Loc RecordBuilderField))
  | var (moduleName : String) (ident : String) (suffixed : Nat)
  | underscore (s : String)
  | crash
  | tag (s : String)
  | opaqRef (s : String)
  | closure (patterns : List (Loc Pattern)) (body : Loc Expr)
  | defs (valueDefs : List ValueDef) (ret : Loc Expr)
  | backpassing (patterns : List (Loc Pattern)) (body : Loc Expr) (ret : Loc Expr)
  | expect (condition : Loc Expr) (continuation : Loc Expr)
  | dbg (condition : Loc Expr) (continuation : Loc Expr)
  | lowLevelDbg (label : String) (srcSlice : String)
      (message : Loc Expr) (continuation : Loc Expr)
  | apply (fn : Loc Expr) (args : List (Loc Expr)) (calledVia : CalledVia)
  | binOps (lefts : List (Loc Expr × Loc BinOp)) (right : Loc Expr)
  | unaryOp (arg : Loc Expr) (op : Loc UnaryOp)
  | if_ (ifThens : List (Loc Expr × Loc Expr)) (finalElse : Loc Expr)
  | when (condition : Loc Expr) (branches : List WhenBranch)
  | ingestedFile (path : String) (ann : TypeAnn)
  | parensAround (inner : Expr)
  | spaceBefore (inner : Expr) (sp : Spaces)
  | spaceAfter (inner : Expr) (sp : Spaces)
  | malformedIdent (s : String)
  | malformedClosure
  | precedenceConflict (wholeRegion : Region)
      (binop1Position : Nat) (binop2Position : Nat)
      (binop1 : BinOp) (binop2 : BinOp) (expr : Loc Expr)
  | multipleRecordBuilders (inner : Loc Expr)
  | unappliedRecordBuilder (inner : Loc Expr)

/-- Type `StrLiteral` from `roc_parse::ast`. -/
inductive StrLiteral where
  | plainLine (s : String)
  | line (segments : List StrSegment)
  | block (lines : List (List StrSegment))

/-- Type `StrSegment` from `roc_parse::ast`. -/
inductive StrSegment where
  | plaintext (s : String)
  | unicode (s : Loc String)
  | escapedChar (c : Char)
  | deprecatedInterpolated (e : Loc Expr)
  | interpolated (e : Loc Expr)

/-- Type `AssignedField` from `roc_parse::ast` (specialised to expression
values, as used by record literals and record update). -/
inductive AssignedField where
  | requiredValue (label : Loc String) (spaces : Spaces) (val : Loc Expr)
  | optionalValue (label : Loc String) (spaces : Spaces) (val : Loc Expr)
  | labelOnly (label : Loc String)
  | spaceBefore (field : AssignedField) (sp : Spaces)
  | spaceAfter (field : AssignedField) (sp : Spaces)
  | malformed (s : String)

/-- Type `RecordBuilderField` from `roc_parse::ast`. -/
inductive RecordBuilderField where
  | value (label : Loc String) (spaces : Spaces) (val : Loc Expr)
  | applyValue (label : Loc String) (sp1 sp2 : Spaces) (val : Loc Expr)
  | labelOnly (label : Loc String)
  | spaceBefore (field : RecordBuilderField) (sp : Spaces)
  | spaceAfter (field : RecordBuilderField) (sp : Spaces)
  | malformed (s : String)

/-- Type `Pattern` from `roc_parse::ast` (the variants handled by
`desugar_pattern`).  The source's `OpaqueRef` is rendered `opaqRef`. -/
inductive Pattern where
  | identifier (ident : String) (suffixed : Nat)
  | tag (s : String)
  | opaqRef (s : String)
  | apply (tag : Loc Pattern) (args : List (Loc Pattern))
  | recordDestructure (fields : List (Loc Pattern))
  | requiredField (name : String) (field : Loc Pattern)
  | optionalField (name : String) (default : Loc Expr)
  | numLiteral (s : String)
  | nonBase10Literal (s : String) (base : Base) (isNegative : Bool)
  | floatLiteral (s : String)
  | strLiteral (lit : StrLiteral)
  | underscore (s : String)
  | singleQuote (s : String)
  | tuple (patterns : List (Loc Pattern))
  | list (patterns : List (Loc Pattern))
  | listRest (asName : Option String)
  | as_ (pat : Loc Pattern) (ident : Loc String)
  | spaceBefore (pat : Pattern) (sp : Spaces)
  | spaceAfter (pat : Pattern) (sp : Spaces)
  | malformed (s : String)
  | malformedIdent (s : String)
  | qualifiedIdentifier (moduleName : String) (ident : String)

/-- Type `WhenBranch` from `roc_parse::ast`. -/
inductive WhenBranch where
  | mk (patterns : List (Loc Pattern)) (value : Loc Expr)
      (guard : Option (Loc Expr))

/-- Type `ValueDef` from `roc_parse::ast` (the variants handled by
`desugar_value_def`).  The source's `Annotation` is rendered
`annotationDecl`.  `preceding_comment` regions are carried through
unchanged. -/
inductive ValueDef where
  | body (pat : Loc Pattern) (expr : Loc Expr)
  | annotationDecl (pat : Loc Pattern) (ann : TypeAnn)
  | annotatedBody (annPattern : Loc Pattern) (annType : TypeAnn)
      (comment : Option String) (bodyPattern : Loc Pattern) (bodyExpr : Loc Expr)
  | dbg (condition : Loc Expr) (precedingComment : Region)
  | expect (condition : Loc Expr) (precedingComment : Region)
  | expectFx (condition : Loc Expr) (precedingComment : Region)
  | stmt (expr : Loc Expr)

end

/-- Module-name constants from `roc_module::ident::ModuleName` used by
`desugar.rs`. -/
def moduleNameNum : String := "Num"

def moduleNameBool : String := "Bool"

def moduleNameInspect : String := "Inspect"

def moduleNameTask : String := "Task"

/-- Function `binop_to_function` from `desugar.rs`: the operator-to-builtin
table.  The five structural operators (`Pizza`, `Assignment`, `IsAliasType`,
`IsOpaqueType`, `Backpassing`) are `unreachable!` (modelled `none`). -/
def binop_to_function : BinOp → Option (String × String)
  | .caret => some (moduleNameNum, "pow")
  | .star => some (moduleNameNum, "mul")
  | .slash => some (moduleNameNum, "div")
  | .doubleSlash => some (moduleNameNum, "divTrunc")
  | .percent => some (moduleNameNum, "rem")
  | .plus => some (moduleNameNum, "add")
  | .minus => some (moduleNameNum, "sub")
  | .equals => some (moduleNameBool, "isEq")
  | .notEquals => some (moduleNameBool, "isNotEq")
  | .lessThan => some (moduleNameNum, "isLt")
  | .greaterThan => some (moduleNameNum, "isGt")
  | .lessThanOrEq => some (moduleNameNum, "isLte")
  | .greaterThanOrEq => some (moduleNameNum, "isGte")
  | .and => some (moduleNameBool, "and")
  | .or => some (moduleNameBool, "or")
  | .pizza | .assignment | .isAliasType | .isOpaqType | .backpassing => none

/-- Function `new_op_call_expr` from `desugar.rs`: rewrite one binary
operator application into an `Apply`.  `Pizza` splices the left operand in
as the first argument of an existing application (or applies the right
operand to it); every other operator becomes a call of the
`binop_to_function` builtin (whose structural arms are `unreachable!`,
hence `none`). -/
def new_op_call_expr (left : Loc Expr) (loc_op : Loc BinOp)
    (right : Loc Expr) : Option (Loc Expr) :=
  let region := Region.span_across left.region right.region
  match loc_op.value with
  | .pizza =>
    match right.value with
    | .apply function arguments _called_via =>
      some ⟨region, .apply function (left :: arguments) (.binOp .pizza)⟩
    | _ =>
      some ⟨region, .apply right [left] (.binOp .pizza)⟩
  | binop => do
    let (module_name, ident) ← binop_to_function binop
    let loc_expr : Loc Expr := ⟨loc_op.region, .var module_name ident 0⟩
    some ⟨region, .apply loc_expr [left, right] (.binOp binop)⟩

/-- Type `Step` from `desugar.rs` (the outcome of one `binop_step`). -/
inductive Step where
  | error (problem : Loc Expr)
  | push (op : Loc BinOp)
  | skip

/-- Function `binop_step` from `desugar.rs`.  The two `&mut Vec` stacks are
threaded explicitly (head = top of stack); the result carries the updated
stacks next to the `Step`.  The `arg_stack.pop().unwrap()` calls and the
same-precedence/mismatched-associativity `internal_error!` are modelled as
`none`. -/
def binop_step (whole_region : Region) (arg_stack : List (Loc Expr))
    (op_stack : List (Loc BinOp)) (next_op : Loc BinOp) :
    Option (Step × List (Loc Expr) × List (Loc BinOp)) :=
  match op_stack with
  | stack_op :: rest_ops =>
    match next_op.value.cmp stack_op.value with
    | .lt =>
      -- Inline
      match arg_stack with
      | right :: left :: rest_args => do
        let combined ← new_op_call_expr left stack_op right
        some (.push next_op, combined :: rest_args, rest_ops)
      | _ => none
    | .gt =>
      -- Swap
      some (.skip, arg_stack, next_op :: stack_op :: rest_ops)
    | .eq =>
      match next_op.value.associativity, stack_op.value.associativity with
      | .leftAssociative, .leftAssociative =>
        -- Inline
        match arg_stack with
        | right :: left :: rest_args => do
          let combined ← new_op_call_expr left stack_op right
          some (.push next_op, combined :: rest_args, rest_ops)
        | _ => none
      | .rightAssociative, .rightAssociative =>
        -- Swap
        some (.skip, arg_stack, next_op :: stack_op :: rest_ops)
      | .nonAssociative, .nonAssociative =>
        -- Both operators were non-associative; tell the author to
        -- disambiguate with parens, via a PrecedenceConflict marker.
        match arg_stack with
        | right :: left :: rest_args => do
          let bad_op := next_op
          let broken_expr ← new_op_call_expr left stack_op right
          let region := broken_expr.region
          let value := Expr.precedenceConflict whole_region
            stack_op.region.start bad_op.region.start
            stack_op.value bad_op.value broken_expr
          some (.error ⟨region, value⟩, rest_args, rest_ops)
        | _ => none
      | _, _ =>
        -- Same precedence but different associativity: internal_error!
        none
  | [] =>
    some (.skip, arg_stack, next_op :: op_stack)

/-- Shows that a `Push` outcome of `binop_step` consumed the top of the
operator stack (used for the termination of `run_binop_step`). -/
theorem binop_step_push_length {whole_region arg_stack op_stack next_op op args ops}
    (h : binop_step whole_region arg_stack op_stack next_op =
      some (.push op, args, ops)) : ops.length < op_stack.length := by
  unfold binop_step at h
  repeat split at h
  all_goals simp_all [Option.bind_eq_some]
  all_goals (repeat' split at h)
  all_goals (try simp_all [Option.bind_eq_some])
  all_goals
    obtain ⟨c, hc1, hc2, hc3, hc4⟩ := h
  all_goals subst hc4
  all_goals simp

/-- Function `run_binop_step` from `desugar.rs`: repeat `binop_step` until it
skips or errors.  An `Err(problem)` short-circuits the whole chain with the
problem expression. -/
def run_binop_step (whole_region : Region) (arg_stack : List (Loc Expr))
    (op_stack : List (Loc BinOp)) (next_op : Loc BinOp) :
    Option (Except (Loc Expr) (List (Loc Expr) × List (Loc BinOp))) :=
  match h : binop_step whole_region arg_stack op_stack next_op with
  | none => none
  | some (.error problem, _, _) => some (.error problem)
  | some (.push op, args, ops) => run_binop_step whole_region args ops op
  | some (.skip, args, ops) => some (.ok (args, ops))
termination_by op_stack.length
decreasing_by exact binop_step_push_length h

/-- Type `Unwrapped` from `desugar.rs` (result of
`unwrap_suffixed_expression`). -/
inductive Unwrapped where
  | unwrapped (e : Loc Expr)
  | unwrappedSubExpr (arg : Loc Expr) (pat : List (Loc Pattern)) (new : Loc Expr)

mutual

/-- Function `unwrap_suffixed_expression` from `desugar.rs` (the live,
uncommented code only): a `Var` or an `Apply` is returned unchanged; a
`Defs` node first recursively checks every `ValueDef::Body` definition body
(the `let result = unwrap_suffixed_expression(arena, def_expr);` whose value
is discarded but whose panic propagates) and is then returned unchanged;
every other expression shape hits the final `todo!()`, modelled `none`. -/
def unwrap_suffixed_expression (loc_expr : Loc Expr) : Option Unwrapped :=
  match loc_expr with
  | ⟨r, .var m i s⟩ => some (.unwrapped ⟨r, .var m i s⟩)
  | ⟨r, .defs value_defs ret⟩ => do
    let _ ← unwrap_suffixed_defs value_defs
    some (.unwrapped ⟨r, .defs value_defs ret⟩)
  | ⟨r, .apply function arguments called_via⟩ =>
    some (.unwrapped ⟨r, .apply function arguments called_via⟩)
  | _ => none

/-- Loop over `defs.defs()` in the `Defs` arm of
`unwrap_suffixed_expression`: only `ValueDef::Body` defs are examined. -/
def unwrap_suffixed_defs (defs : List ValueDef) : Option Unit :=
  match defs with
  | [] => some ()
  | .body _def_pattern def_expr :: rest => do
    let _result ← unwrap_suffixed_expression def_expr
    unwrap_suffixed_defs rest
  | _ :: rest => unwrap_suffixed_defs rest

end

/-- Type `RecordBuilderArg` from `desugar.rs`. -/
structure RecordBuilderArg where
  closure : Loc Expr
  apply_exprs : List (Loc Expr)

/-- Space-stripping `loop` over one `RecordBuilderField` in
`record_builder_arg`: produce the `AssignedField` for the closure's record
body, and for an `ApplyValue` field also its label and original expression
(pushed onto `apply_field_names` / `apply_exprs`). -/
def builder_field_split : RecordBuilderField →
    AssignedField × Option (Loc String × Loc Expr)
  | .value label spaces expr => (.requiredValue label spaces expr, none)
  | .applyValue label _ _ expr =>
    (.requiredValue label []
        ⟨label.region, .var "" ("#" ++ label.value) 0⟩,
      some (label, expr))
  | .labelOnly label => (.labelOnly label, none)
  | .spaceBefore sub _ => builder_field_split sub
  | .spaceAfter sub _ => builder_field_split sub
  | .malformed m => (.malformed m, none)

/-- Main loop of `record_builder_arg`: walk the fields in order gathering
the record fields, the applicative field names and the applicative field
expressions. -/
def record_builder_arg_fields : List (Loc RecordBuilderField) →
    List (Loc AssignedField) × List (Loc String) × List (Loc Expr)
  | [] => ([], [], [])
  | f :: rest =>
    let (new_field, apply_part) := builder_field_split f.value
    let (rfs, names, exprs) := record_builder_arg_fields rest
    match apply_part with
    | none => (⟨f.region, new_field⟩ :: rfs, names, exprs)
    | some (label, expr) =>
      (⟨f.region, new_field⟩ :: rfs, label :: names, expr :: exprs)

/-- Function `record_builder_arg` from `desugar.rs`: build the record body
referencing hidden `#label` variables for the applicative fields, then wrap
it in one closure per applicative field; the reversed iteration over
`apply_field_names` is a right fold, so the first applicative field binds
the outermost closure. -/
def record_builder_arg (region : Region)
    (fields : List (Loc RecordBuilderField)) : RecordBuilderArg :=
  let (record_fields, apply_field_names, apply_exprs) :=
    record_builder_arg_fields fields
  let body := apply_field_names.foldr
    (fun label body =>
      (⟨region, .closure [⟨label.region, .identifier ("#" ++ label.value) 0⟩]
        body⟩ : Loc Expr))
    ⟨region, .record record_fields⟩
  ⟨body, apply_exprs⟩

/-- Inner `loop` of the `Apply` arm of `desugar_expr`: unwrap leading
space trivia on an argument and report a record-builder argument's fields
when one is found. -/
def arg_find_builder : Expr → Option (List (Loc RecordBuilderField))
  | .recordBuilder fields => some fields
  | .spaceBefore e _ => arg_find_builder e
  | .spaceAfter e _ => arg_find_builder e
  | _ => none

/-- Modelled from the spec: the byte-offset to line translation of
`roc_region::LineInfo` (not under `src/`): the 0-based line number of a
position is the number of newlines before it.  The `&mut Option<LineInfo>`
threading in the source is a compute-at-most-once memoization of
`LineInfo::new(src)` and does not change the resulting tree, so the
translation is invoked directly where the source reads the cache. -/
def line_of_pos (src : String) (pos : Nat) : Nat :=
  ((src.toList.take pos).filter (fun c => c = '\n')).length

/-- Byte slice `src[start..stop]` (the nested `split_at` calls of the `Dbg`
arm); offsets are treated as character offsets. -/
def slice_src (src : String) (start stop : Nat) : String :=
  String.mk ((src.toList.take stop).drop start)

/-! Termination measure for the desugaring recursion.  `desugar_expr`
recurses into the closure synthesized by `record_builder_arg`, which is not
a subterm of its input, so the default structural size cannot justify the
recursion; `esizeExpr` weights `RecordBuilder` fields heavily enough that
the synthesized closure is provably smaller than the builder node it
replaces.  Regions and other non-recursive payloads weigh nothing. -/

mutual

def esizeExpr : Expr → Nat
  | .float _ | .num _ | .nonBase10Int .. | .singleQuote _
  | .accessorFunction _ | .var .. | .underscore _ | .crash | .tag _
  | .opaqRef _ | .ingestedFile .. | .malformedIdent _ | .malformedClosure
  | .precedenceConflict .. | .multipleRecordBuilders _
  | .unappliedRecordBuilder _ => 0
  | .str lit => esizeStrLit lit + 1
  | .recordAccess s _ => esizeExpr s + 1
  | .tupleAccess s _ => esizeExpr s + 1
  | .list items => esizeExprList items + 1
  | .record fields => esizeFieldList fields + 1
  | .tuple items => esizeExprList items + 1
  | .recordUpdate ⟨_, u⟩ fields => esizeExpr u + esizeFieldList fields + 2
  | .recordBuilder fields => esizeBFieldList fields + 16
  | .closure pats ⟨_, body⟩ => esizePatList pats + esizeExpr body + 2
  | .defs vds ⟨_, ret⟩ => esizeValueDefList vds + esizeExpr ret + 2
  | .backpassing pats ⟨_, body⟩ ⟨_, ret⟩ =>
    esizePatList pats + esizeExpr body + esizeExpr ret + 2
  | .expect ⟨_, c⟩ ⟨_, k⟩ => esizeExpr c + esizeExpr k + 2
  | .dbg ⟨_, c⟩ ⟨_, k⟩ => esizeExpr c + esizeExpr k + 2
  | .lowLevelDbg _ _ ⟨_, m⟩ ⟨_, k⟩ => esizeExpr m + esizeExpr k + 2
  | .apply ⟨_, fn⟩ args _ => esizeExpr fn + esizeExprList args + 2
  | .binOps lefts ⟨_, right⟩ => esizeBinopLefts lefts + esizeExpr right + 2
  | .unaryOp ⟨_, arg⟩ _ => esizeExpr arg + 2
  | .if_ thens ⟨_, e⟩ => esizeIfThens thens + esizeExpr e + 2
  | .when ⟨_, c⟩ bs => esizeExpr c + esizeBranchList bs + 2
  | .parensAround inner => esizeExpr inner + 1
  | .spaceBefore inner _ => esizeExpr inner + 1
  | .spaceAfter inner _ => esizeExpr inner + 1

def esizeExprList : List (Loc Expr) → Nat
  | [] => 0
  | ⟨_, v⟩ :: rest => esizeExpr v + 1 + esizeExprList rest

def esizeBinopLefts : List (Loc Expr × Loc BinOp) → Nat
  | [] => 0
  | (⟨_, v⟩, _) :: rest => esizeExpr v + 1 + esizeBinopLefts rest

def esizeIfThens : List (Loc Expr × Loc Expr) → Nat
  | [] => 0
  | (⟨_, c⟩, ⟨_, t⟩) :: rest => esizeExpr c + esizeExpr t + 1 + esizeIfThens rest

def esizeBranchList : List WhenBranch → Nat
  | [] => 0
  | .mk pats ⟨_, v⟩ guard :: rest =>
    esizePatList pats + esizeExpr v + esizeGuard guard + 1 + esizeBranchList rest

def esizeGuard : Option (Loc Expr) → Nat
  | none => 0
  | some ⟨_, v⟩ => esizeExpr v + 1

def esizeStrLit : StrLiteral → Nat
  | .plainLine _ => 0
  | .line segs => esizeSegList segs + 1
  | .block lines => esizeSegLines lines + 1

def esizeSegList : List StrSegment → Nat
  | [] => 0
  | s :: rest => esizeSeg s + 1 + esizeSegList rest

def esizeSegLines : List (List StrSegment) → Nat
  | [] => 0
  | l :: rest => esizeSegList l + 1 + esizeSegLines rest

def esizeSeg : StrSegment → Nat
  | .plaintext _ | .unicode _ | .escapedChar _ => 0
  | .deprecatedInterpolated ⟨_, v⟩ => esizeExpr v + 1
  | .interpolated ⟨_, v⟩ => esizeExpr v + 1

def esizeField : AssignedField → Nat
  | .requiredValue _ _ ⟨_, v⟩ => esizeExpr v + 1
  | .optionalValue _ _ ⟨_, v⟩ => esizeExpr v + 1
  | .labelOnly _ => 1
  | .spaceBefore f _ => esizeField f + 1
  | .spaceAfter f _ => esizeField f + 1
  | .malformed _ => 1

def esizeFieldList : List (Loc AssignedField) → Nat
  | [] => 0
  | ⟨_, f⟩ :: rest => esizeField f + 1 + esizeFieldList rest

def esizeBField : RecordBuilderField → Nat
  | .value _ _ ⟨_, v⟩ => esizeExpr v + 2
  | .applyValue _ _ _ ⟨_, v⟩ => esizeExpr v + 8
  | .labelOnly _ => 2
  | .spaceBefore f _ => esizeBField f + 1
  | .spaceAfter f _ => esizeBField f + 1
  | .malformed _ => 1

def esizeBFieldList : List (Loc RecordBuilderField) → Nat
  | [] => 0
  | ⟨_, f⟩ :: rest => esizeBField f + 1 + esizeBFieldList rest

def esizePat : Pattern → Nat
  | .identifier .. | .tag _ | .opaqRef _ | .numLiteral _
  | .nonBase10Literal .. | .floatLiteral _ | .underscore _ | .singleQuote _
  | .listRest _ | .malformed _ | .malformedIdent _
  | .qualifiedIdentifier .. => 0
  | .strLiteral lit => esizeStrLit lit + 1
  | .apply ⟨_, t⟩ args => esizePat t + esizePatList args + 1
  | .recordDestructure fields => esizePatList fields + 1
  | .requiredField _ ⟨_, p⟩ => esizePat p + 2
  | .optionalField _ ⟨_, e⟩ => esizeExpr e + 1
  | .tuple pats => esizePatList pats + 1
  | .list pats => esizePatList pats + 1
  | .as_ ⟨_, p⟩ _ => esizePat p + 2
  | .spaceBefore p _ => esizePat p + 1
  | .spaceAfter p _ => esizePat p + 1

def esizePatList : List (Loc Pattern) → Nat
  | [] => 0
  | ⟨_, p⟩ :: rest => esizePat p + 1 + esizePatList rest

def esizeValueDef : ValueDef → Nat
  | .body ⟨_, p⟩ ⟨_, e⟩ => esizePat p + esizeExpr e + 2
  | .annotationDecl _ _ => 0
  | .annotatedBody _ _ _ _ ⟨_, e⟩ => esizeExpr e + 1
  | .dbg ⟨_, c⟩ _ => esizeExpr c + 1
  | .expect ⟨_, c⟩ _ => esizeExpr c + 1
  | .expectFx ⟨_, c⟩ _ => esizeExpr c + 1
  | .stmt ⟨_, e⟩ => esizeExpr e + 2

def esizeValueDefList : List ValueDef → Nat
  | [] => 0
  | d :: rest => esizeValueDef d + 1 + esizeValueDefList rest

end

/-- Size of the optional applicative part produced by
`builder_field_split`. -/
def esizeSplitOpt : Option (Loc String × Loc Expr) → Nat
  | none => 0
  | some (_, ⟨_, e⟩) => esizeExpr e + 1

/-- Count of the optional applicative part produced by
`builder_field_split`. -/
def countSplitOpt : Option (Loc String × Loc Expr) → Nat
  | none => 0
  | some _ => 1

/-- Per-field size bound for `builder_field_split` (towards the termination
of `desugar_expr` on synthesized record-builder closures). -/
theorem builder_field_split_size :
    ∀ (bf : RecordBuilderField),
      esizeField (builder_field_split bf).1 + 1 +
          3 * countSplitOpt (builder_field_split bf).2 ≤ esizeBField bf + 1 ∧
        esizeSplitOpt (builder_field_split bf).2 ≤ esizeBField bf
  | .value label spaces ⟨er, ev⟩ => by
    simp [builder_field_split, esizeField, esizeBField, countSplitOpt,
      esizeSplitOpt]
  | .applyValue label sp1 sp2 ⟨er, ev⟩ => by
    simp [builder_field_split, esizeField, esizeBField, countSplitOpt,
      esizeSplitOpt, esizeExpr]
  | .labelOnly label => by
    simp [builder_field_split, esizeField, esizeBField, countSplitOpt,
      esizeSplitOpt]
  | .spaceBefore sub sp => by
    have ih := builder_field_split_size sub
    simp only [builder_field_split, esizeBField]
    omega
  | .spaceAfter sub sp => by
    have ih := builder_field_split_size sub
    simp only [builder_field_split, esizeBField]
    omega
  | .malformed m => by
    simp [builder_field_split, esizeField, esizeBField, countSplitOpt,
      esizeSplitOpt]

/-- List-level size bound for `record_builder_arg_fields`. -/
theorem record_builder_arg_fields_size (fields : List (Loc RecordBuilderField)) :
    esizeFieldList (record_builder_arg_fields fields).1 +
        3 * (record_builder_arg_fields fields).2.1.length ≤
        esizeBFieldList fields ∧
      esizeExprList (record_builder_arg_fields fields).2.2 ≤
        esizeBFieldList fields := by
  induction fields with
  | nil =>
    simp [record_builder_arg_fields, esizeFieldList, esizeExprList,
      esizeBFieldList]
  | cons f rest ih =>
    obtain ⟨lf1, lf2⟩ := builder_field_split_size f.value
    rcases f with ⟨fr, fv⟩
    rcases hs : builder_field_split fv with ⟨nf, os⟩
    rw [hs] at lf1 lf2
    rcases hr : record_builder_arg_fields rest with ⟨rfs, names, exprs⟩
    rw [hr] at ih
    simp only at ih lf1 lf2
    rcases os with _ | ⟨label, expr⟩
    · simp only [countSplitOpt, esizeSplitOpt] at lf1 lf2
      simp only [record_builder_arg_fields, hs, hr, esizeFieldList,
        esizeBFieldList]
      omega
    · rcases expr with ⟨er, ev⟩
      simp only [countSplitOpt, esizeSplitOpt] at lf1 lf2
      simp only [record_builder_arg_fields, hs, hr, esizeFieldList,
        esizeExprList, esizeBFieldList, List.length_cons]
      omega

/-- Size of the closure-wrapping fold of `record_builder_arg`. -/
theorem record_builder_closure_fold_size (region : Region) (base : Loc Expr)
    (names : List (Loc String)) :
    esizeExpr ((names.foldr
      (fun label body =>
        (⟨region, .closure
            [⟨label.region, .identifier ("#" ++ label.value) 0⟩] body⟩ :
          Loc Expr))
      base)).value = 3 * names.length + esizeExpr base.value := by
  induction names with
  | nil => simp
  | cons n rest ih =>
    simp [esizeExpr, esizePatList, esizePat, ih]
    omega

/-- The closure and applicative expressions synthesized by
`record_builder_arg` are strictly smaller than the `RecordBuilder` node they
came from. -/
theorem record_builder_arg_size (region : Region)
    (fields : List (Loc RecordBuilderField)) :
    esizeExpr (record_builder_arg region fields).closure.value ≤
        esizeBFieldList fields + 1 ∧
      esizeExprList (record_builder_arg region fields).apply_exprs ≤
        esizeBFieldList fields := by
  obtain ⟨l1, l2⟩ := record_builder_arg_fields_size fields
  rcases hf : record_builder_arg_fields fields with ⟨rfs, names, exprs⟩
  rw [hf] at l1 l2
  simp only at l1 l2
  constructor
  · simp only [record_builder_arg, hf]
    rw [record_builder_closure_fold_size]
    simp only [esizeExpr]
    omega
  · simp only [record_builder_arg, hf]
    exact l2

/-- Finding a builder under space trivia bounds the builder's size by the
argument's size. -/
theorem arg_find_builder_size :
    ∀ (v : Expr) {fields : List (Loc RecordBuilderField)},
      arg_find_builder v = some fields →
      esizeBFieldList fields + 16 ≤ esizeExpr v
  | .recordBuilder fs, fields, h => by
    simp [arg_find_builder] at h
    subst h
    simp [esizeExpr]
  | .spaceBefore e sp, fields, h => by
    have ih := @arg_find_builder_size e fields
      (by simpa [arg_find_builder] using h)
    simp only [esizeExpr]
    omega
  | .spaceAfter e sp, fields, h => by
    have ih := @arg_find_builder_size e fields
      (by simpa [arg_find_builder] using h)
    simp only [esizeExpr]
    omega
  | .float _, _, h | .num _, _, h | .nonBase10Int _ _ _, _, h
  | .str _, _, h | .singleQuote _, _, h | .recordAccess _ _, _, h
  | .accessorFunction _, _, h | .tupleAccess _ _, _, h | .list _, _, h
  | .recordUpdate _ _, _, h | .record _, _, h | .tuple _, _, h
  | .var _ _ _, _, h | .underscore _, _, h | .crash, _, h | .tag _, _, h
  | .opaqRef _, _, h | .closure _ _, _, h | .defs _ _, _, h
  | .backpassing _ _ _, _, h | .expect _ _, _, h | .dbg _ _, _, h
  | .lowLevelDbg _ _ _ _, _, h | .apply _ _ _, _, h | .binOps _ _, _, h
  | .unaryOp _ _, _, h | .if_ _ _, _, h | .when _ _, _, h
  | .ingestedFile _ _, _, h | .parensAround _, _, h
  | .malformedIdent _, _, h | .malformedClosure, _, h
  | .precedenceConflict _ _ _ _ _ _, _, h
  | .multipleRecordBuilders _, _, h | .unappliedRecordBuilder _, _, h => by
    simp [arg_find_builder] at h

/-- Final reduction loop of `desugar_bin_ops`: combine the remaining stacks
right-to-left (the `.zip(..).rev()` of the source; the stacks here carry
their top first, so the reversed bottom-up iteration is the natural
order). -/
def binops_combine (arg_stack : List (Loc Expr)) (op_stack : List (Loc BinOp))
    (expr : Loc Expr) : Option (Loc Expr) :=
  (arg_stack.zip op_stack).foldlM
    (fun e p => new_op_call_expr p.1 p.2 e) expr

mutual

/-- Function `desugar_expr` from `desugar.rs`: reorder binary-operator
chains by precedence/associativity, replace `BinOp` nodes with `Apply`
nodes, drop `SpaceBefore`/`SpaceAfter` trivia, and lower the remaining
sugar.  `none` models the source's panics (`LowLevelDbg` is
`unreachable!("Only exists after desugaring")`; the `Defs` arm propagates
`unwrap_suffixed_expression` panics and the `internal_error!` on an
`UnwrappedSubExpr`). -/
def desugar_expr (src module_path : String) : Loc Expr → Option (Loc Expr)
  | ⟨r, .float s⟩ => some ⟨r, .float s⟩
  | ⟨r, .num s⟩ => some ⟨r, .num s⟩
  | ⟨r, .nonBase10Int s b n⟩ => some ⟨r, .nonBase10Int s b n⟩
  | ⟨r, .singleQuote s⟩ => some ⟨r, .singleQuote s⟩
  | ⟨r, .accessorFunction a⟩ => some ⟨r, .accessorFunction a⟩
  | ⟨r, .var m i sfx⟩ => some ⟨r, .var m i sfx⟩
  | ⟨r, .underscore s⟩ => some ⟨r, .underscore s⟩
  | ⟨r, .malformedIdent s⟩ => some ⟨r, .malformedIdent s⟩
  | ⟨r, .malformedClosure⟩ => some ⟨r, .malformedClosure⟩
  | ⟨r, .precedenceConflict wr p1 p2 o1 o2 e⟩ =>
    some ⟨r, .precedenceConflict wr p1 p2 o1 o2 e⟩
  | ⟨r, .multipleRecordBuilders e⟩ => some ⟨r, .multipleRecordBuilders e⟩
  | ⟨r, .unappliedRecordBuilder e⟩ => some ⟨r, .unappliedRecordBuilder e⟩
  | ⟨r, .tag s⟩ => some ⟨r, .tag s⟩
  | ⟨r, .opaqRef s⟩ => some ⟨r, .opaqRef s⟩
  | ⟨r, .ingestedFile p ann⟩ => some ⟨r, .ingestedFile p ann⟩
  | ⟨r, .crash⟩ => some ⟨r, .crash⟩
  | ⟨r, .str (.plainLine s)⟩ => some ⟨r, .str (.plainLine s)⟩
  | ⟨r, .str (.line segments)⟩ => do
    let segs ← desugar_str_segments src module_path segments
    some ⟨r, .str (.line segs)⟩
  | ⟨r, .str (.block lines)⟩ => do
    let ls ← desugar_str_lines src module_path lines
    some ⟨r, .str (.block ls)⟩
  | ⟨r, .tupleAccess sub_expr paths⟩ => do
    let d ← desugar_expr src module_path ⟨r, sub_expr⟩
    some ⟨r, .tupleAccess d.value paths⟩
  | ⟨r, .recordAccess sub_expr paths⟩ => do
    let d ← desugar_expr src module_path ⟨r, sub_expr⟩
    some ⟨r, .recordAccess d.value paths⟩
  | ⟨r, .list items⟩ => do
    let new_items ← desugar_expr_list src module_path items
    some ⟨r, .list new_items⟩
  | ⟨r, .record fields⟩ => do
    let fs ← desugar_field_list src module_path fields
    some ⟨r, .record fs⟩
  | ⟨r, .tuple fields⟩ => do
    let fs ← desugar_expr_list src module_path fields
    some ⟨r, .tuple fs⟩
  | ⟨r, .recordUpdate ⟨ur, uv⟩ fields⟩ => do
    let new_update ← desugar_expr src module_path ⟨ur, uv⟩
    let new_fields ← desugar_field_list src module_path fields
    some ⟨r, .recordUpdate new_update new_fields⟩
  | ⟨r, .closure loc_patterns ⟨br, bv⟩⟩ => do
    let ps ← desugar_loc_patterns src module_path loc_patterns
    let b ← desugar_expr src module_path ⟨br, bv⟩
    some ⟨r, .closure ps b⟩
  | ⟨r, .backpassing loc_patterns ⟨br, bv⟩ ⟨rr, rv⟩⟩ => do
    -- first desugar the body, because it may contain |>
    let desugared_body ← desugar_expr src module_path ⟨br, bv⟩
    let desugared_ret ← desugar_expr src module_path ⟨rr, rv⟩
    let desugared_loc_patterns ← desugar_loc_patterns src module_path
      loc_patterns
    let loc_closure : Loc Expr :=
      ⟨r, .closure desugared_loc_patterns desugared_ret⟩
    match desugared_body with
    | ⟨_, .apply function arguments called_via⟩ =>
      some ⟨r, .apply function (arguments ++ [loc_closure]) called_via⟩
    | _ => some ⟨r, .apply desugared_body [loc_closure] .space⟩
  | ⟨r, .recordBuilder fields⟩ =>
    some ⟨r, .unappliedRecordBuilder ⟨r, .recordBuilder fields⟩⟩
  | ⟨r, .binOps lefts ⟨rr, rv⟩⟩ =>
    desugar_bin_ops src module_path r lefts ⟨rr, rv⟩
  | ⟨r, .defs defs ⟨rr, rv⟩⟩ => do
    let ds ← desugar_defs_node_values src module_path defs
    let ret ← desugar_expr src module_path ⟨rr, rv⟩
    match ← unwrap_suffixed_expression ⟨r, .defs ds ret⟩ with
    | .unwrapped e => some e
    | .unwrappedSubExpr .. => none
  | ⟨r, .apply ⟨fr, fv⟩ loc_args called_via⟩ => do
    match ← desugar_apply_args src module_path
        ⟨r, .apply ⟨fr, fv⟩ loc_args called_via⟩ loc_args none with
    | .error marker => some marker
    | .ok (desugared_args, builder_apply_exprs) => do
      let fn ← desugar_expr src module_path ⟨fr, fv⟩
      let base : Loc Expr := ⟨r, .apply fn desugared_args called_via⟩
      match builder_apply_exprs with
      | none => some base
      | some apply_exprs =>
        some (apply_exprs.foldl
          (fun acc e => ⟨r, .apply e [acc] .recordBuilder⟩) base)
  | ⟨r, .when ⟨cr, cv⟩ branches⟩ => do
    let cond ← desugar_expr src module_path ⟨cr, cv⟩
    let bs ← desugar_when_branches src module_path branches
    some ⟨r, .when cond bs⟩
  | ⟨r, .unaryOp ⟨ar, av⟩ loc_op⟩ => do
    let value : Expr :=
      match loc_op.value with
      | .negate => .var moduleNameNum "neg" 0
      | .not => .var moduleNameBool "not" 0
    let loc_fn_var : Loc Expr := ⟨loc_op.region, value⟩
    let d ← desugar_expr src module_path ⟨ar, av⟩
    some ⟨r, .apply loc_fn_var [d] (.unaryOp loc_op.value)⟩
  | ⟨r, .spaceBefore inner _⟩ => desugar_expr src module_path ⟨r, inner⟩
  | ⟨r, .spaceAfter inner _⟩ => desugar_expr src module_path ⟨r, inner⟩
  | ⟨r, .parensAround inner⟩ => do
    let d ← desugar_expr src module_path ⟨r, inner⟩
    some ⟨r, .parensAround d.value⟩
  | ⟨r, .if_ if_thens ⟨er, ev⟩⟩ => do
    let delse ← desugar_expr src module_path ⟨er, ev⟩
    let dthens ← desugar_if_thens src module_path if_thens
    some ⟨r, .if_ dthens delse⟩
  | ⟨r, .expect ⟨cr, cv⟩ ⟨kr, kv⟩⟩ => do
    let c ← desugar_expr src module_path ⟨cr, cv⟩
    let k ← desugar_expr src module_path ⟨kr, kv⟩
    some ⟨r, .expect c k⟩
  | ⟨r, .dbg ⟨cr, cv⟩ ⟨kr, kv⟩⟩ => do
    -- Desugars a `dbg x` statement into Inspect.toStr x |> LowLevelDbg
    let desugared_continuation ← desugar_expr src module_path ⟨kr, kv⟩
    let loc_inspect_fn_var : Loc Expr := ⟨cr, .var moduleNameInspect "toStr" 0⟩
    let darg ← desugar_expr src module_path ⟨cr, cv⟩
    let dbg_str : Loc Expr := ⟨cr, .apply loc_inspect_fn_var [darg] .space⟩
    let line := line_of_pos src cr.start
    let dbg_src := slice_src src cr.start cr.stop
    some ⟨r, .lowLevelDbg (module_path ++ ":" ++ toString (line + 1)) dbg_src
      dbg_str desugared_continuation⟩
  | ⟨_, .lowLevelDbg ..⟩ => none
termination_by le => esizeExpr le.value
decreasing_by all_goals
  ((try simp only [esizeExpr, esizeExprList, esizeBinopLefts, esizeIfThens,
    esizeBranchList, esizeGuard, esizeStrLit, esizeSegList, esizeSegLines,
    esizeSeg, esizeField, esizeFieldList, esizeBField, esizeBFieldList,
    esizePat, esizePatList, esizeValueDef, esizeValueDefList]); omega)

/-- List walk of the expression lists desugared element-wise by
`desugar_expr` (`List`, `Tuple`, argument slices, applicative builder
expressions). -/
def desugar_expr_list (src module_path : String) :
    List (Loc Expr) → Option (List (Loc Expr))
  | [] => some []
  | ⟨er, ev⟩ :: rest => do
    let d ← desugar_expr src module_path ⟨er, ev⟩
    let ds ← desugar_expr_list src module_path rest
    some (d :: ds)
termination_by l => esizeExprList l
decreasing_by all_goals
  ((try simp only [esizeExpr, esizeExprList, esizeBinopLefts, esizeIfThens,
    esizeBranchList, esizeGuard, esizeStrLit, esizeSegList, esizeSegLines,
    esizeSeg, esizeField, esizeFieldList, esizeBField, esizeBFieldList,
    esizePat, esizePatList, esizeValueDef, esizeValueDefList]); omega)

/-- Argument loop of the `Apply` arm of `desugar_expr`: find at most one
record-builder argument (a second one aborts the whole call with a
`MultipleRecordBuilders` marker wrapping the original expression), replace
it by its synthesized closure, and desugar every argument.  The applicative
field expressions are desugared here at discovery time; the source desugars
them after the callee, which yields the same tree since desugaring is
pure. -/
def desugar_apply_args (src module_path : String) (orig : Loc Expr) :
    List (Loc Expr) → Option (List (Loc Expr)) →
    Option (Except (Loc Expr) (List (Loc Expr) × Option (List (Loc Expr))))
  | [], builder_apply_exprs => some (.ok ([], builder_apply_exprs))
  | ⟨argr, argv⟩ :: rest, builder_apply_exprs =>
    match hfb : arg_find_builder argv with
    | some fields =>
      if builder_apply_exprs.isSome then
        some (.error ⟨orig.region, .multipleRecordBuilders orig⟩)
      else do
        let builder_arg := record_builder_arg argr fields
        let d ← desugar_expr src module_path builder_arg.closure
        let exprs ← desugar_expr_list src module_path builder_arg.apply_exprs
        match ← desugar_apply_args src module_path orig rest (some exprs) with
        | .error e => some (.error e)
        | .ok (ds, st) => some (.ok (d :: ds, st))
    | none => do
      let d ← desugar_expr src module_path ⟨argr, argv⟩
      match ← desugar_apply_args src module_path orig rest
          builder_apply_exprs with
      | .error e => some (.error e)
      | .ok (ds, st) => some (.ok (d :: ds, st))
termination_by args _ => esizeExprList args
decreasing_by
  all_goals simp only [esizeExprList]
  all_goals
    first
      | omega
      | (have h1 := (record_builder_arg_size argr fields).1
         have h2 := arg_find_builder_size argv hfb
         omega)
      | (have h1 := (record_builder_arg_size argr fields).2
         have h2 := arg_find_builder_size argv hfb
         omega)

/-- Function `desugar_bin_ops` from `desugar.rs`. -/
def desugar_bin_ops (src module_path : String) (whole_region : Region)
    (lefts : List (Loc Expr × Loc BinOp)) (right : Loc Expr) :
    Option (Loc Expr) := do
  match ← desugar_bin_ops_lefts src module_path whole_region lefts [] [] with
  | .error problem => some problem
  | .ok (arg_stack, op_stack) => do
    let e ← desugar_expr src module_path right
    binops_combine arg_stack op_stack e
termination_by esizeBinopLefts lefts + esizeExpr right.value + 1
decreasing_by all_goals
  ((try simp only [esizeExpr, esizeExprList, esizeBinopLefts, esizeIfThens,
    esizeBranchList, esizeGuard, esizeStrLit, esizeSegList, esizeSegLines,
    esizeSeg, esizeField, esizeFieldList, esizeBField, esizeBFieldList,
    esizePat, esizePatList, esizeValueDef, esizeValueDefList]); omega)

/-- Main loop of `desugar_bin_ops`: desugar each left operand, then run the
precedence-climbing steps for its operator. -/
def desugar_bin_ops_lefts (src module_path : String) (whole_region : Region) :
    List (Loc Expr × Loc BinOp) → List (Loc Expr) → List (Loc BinOp) →
    Option (Except (Loc Expr) (List (Loc Expr) × List (Loc BinOp)))
  | [], arg_stack, op_stack => some (.ok (arg_stack, op_stack))
  | (⟨lr, lv⟩, loc_op) :: rest, arg_stack, op_stack => do
    let d ← desugar_expr src module_path ⟨lr, lv⟩
    match ← run_binop_step whole_region (d :: arg_stack) op_stack loc_op with
    | .error problem => some (.error problem)
    | .ok (args, ops) =>
      desugar_bin_ops_lefts src module_path whole_region rest args ops
termination_by lefts _ _ => esizeBinopLefts lefts
decreasing_by all_goals
  ((try simp only [esizeExpr, esizeExprList, esizeBinopLefts, esizeIfThens,
    esizeBranchList, esizeGuard, esizeStrLit, esizeSegList, esizeSegLines,
    esizeSeg, esizeField, esizeFieldList, esizeBField, esizeBFieldList,
    esizePat, esizePatList, esizeValueDef, esizeValueDefList]); omega)

/-- Function `desugar_value_def` from `desugar.rs`. -/
def desugar_value_def (src module_path : String) : ValueDef → Option ValueDef
  | .body ⟨pr, pv⟩ ⟨er, ev⟩ => do
    let p ← desugar_loc_pattern src module_path ⟨pr, pv⟩
    let e ← desugar_expr src module_path ⟨er, ev⟩
    some (.body p e)
  | .annotationDecl pat ann => some (.annotationDecl pat ann)
  | .annotatedBody ann_pattern ann_type comment body_pattern ⟨er, ev⟩ => do
    let e ← desugar_expr src module_path ⟨er, ev⟩
    some (.annotatedBody ann_pattern ann_type comment body_pattern e)
  | .dbg ⟨cr, cv⟩ preceding_comment => do
    let c ← desugar_expr src module_path ⟨cr, cv⟩
    some (.dbg c preceding_comment)
  | .expect ⟨cr, cv⟩ preceding_comment => do
    let c ← desugar_expr src module_path ⟨cr, cv⟩
    some (.expect c preceding_comment)
  | .expectFx ⟨cr, cv⟩ preceding_comment => do
    let c ← desugar_expr src module_path ⟨cr, cv⟩
    some (.expectFx c preceding_comment)
  | .stmt ⟨er, ev⟩ => do
    -- desugar into `Body({} = , ...)`
    let e ← desugar_expr src module_path ⟨er, ev⟩
    some (.body ⟨er, .recordDestructure []⟩ e)
termination_by d => esizeValueDef d
decreasing_by all_goals
  ((try simp only [esizeExpr, esizeExprList, esizeBinopLefts, esizeIfThens,
    esizeBranchList, esizeGuard, esizeStrLit, esizeSegList, esizeSegLines,
    esizeSeg, esizeField, esizeFieldList, esizeBField, esizeBFieldList,
    esizePat, esizePatList, esizeValueDef, esizeValueDefList]); omega)

/-- Function `desugar_defs_node_values` from `desugar.rs`: desugar every
value definition of a `Defs` node in order. -/
def desugar_defs_node_values (src module_path : String) :
    List ValueDef → Option (List ValueDef)
  | [] => some []
  | d :: rest => do
    let d' ← desugar_value_def src module_path d
    let rest' ← desugar_defs_node_values src module_path rest
    some (d' :: rest')
termination_by ds => esizeValueDefList ds
decreasing_by all_goals
  ((try simp only [esizeExpr, esizeExprList, esizeBinopLefts, esizeIfThens,
    esizeBranchList, esizeGuard, esizeStrLit, esizeSegList, esizeSegLines,
    esizeSeg, esizeField, esizeFieldList, esizeBField, esizeBFieldList,
    esizePat, esizePatList, esizeValueDef, esizeValueDefList]); omega)

/-- Function `desugar_str_segments` from `desugar.rs`: desugar interpolated
segments in place, leave plaintext/unicode/escape segments untouched. -/
def desugar_str_segments (src module_path : String) :
    List StrSegment → Option (List StrSegment)
  | [] => some []
  | .plaintext s :: rest => do
    let ds ← desugar_str_segments src module_path rest
    some (.plaintext s :: ds)
  | .unicode u :: rest => do
    let ds ← desugar_str_segments src module_path rest
    some (.unicode u :: ds)
  | .escapedChar c :: rest => do
    let ds ← desugar_str_segments src module_path rest
    some (.escapedChar c :: ds)
  | .deprecatedInterpolated ⟨lr, lv⟩ :: rest => do
    let d ← desugar_expr src module_path ⟨lr, lv⟩
    let ds ← desugar_str_segments src module_path rest
    some (.deprecatedInterpolated d :: ds)
  | .interpolated ⟨lr, lv⟩ :: rest => do
    let d ← desugar_expr src module_path ⟨lr, lv⟩
    let ds ← desugar_str_segments src module_path rest
    some (.interpolated d :: ds)
termination_by segs => esizeSegList segs
decreasing_by all_goals
  ((try simp only [esizeExpr, esizeExprList, esizeBinopLefts, esizeIfThens,
    esizeBranchList, esizeGuard, esizeStrLit, esizeSegList, esizeSegLines,
    esizeSeg, esizeField, esizeFieldList, esizeBField, esizeBFieldList,
    esizePat, esizePatList, esizeValueDef, esizeValueDefList]); omega)

/-- Per-line walk of the `StrLiteral::Block` arm of `desugar_expr`. -/
def desugar_str_lines (src module_path : String) :
    List (List StrSegment) → Option (List (List StrSegment))
  | [] => some []
  | l :: rest => do
    let dl ← desugar_str_segments src module_path l
    let ds ← desugar_str_lines src module_path rest
    some (dl :: ds)
termination_by ls => esizeSegLines ls
decreasing_by all_goals
  ((try simp only [esizeExpr, esizeExprList, esizeBinopLefts, esizeIfThens,
    esizeBranchList, esizeGuard, esizeStrLit, esizeSegList, esizeSegLines,
    esizeSeg, esizeField, esizeFieldList, esizeBField, esizeBFieldList,
    esizePat, esizePatList, esizeValueDef, esizeValueDefList]); omega)

/-- Function `desugar_field` from `desugar.rs`: desugar an assigned field;
`LabelOnly` is expanded (`{ x }` into `{ x: x }`), space wrappers are
stripped. -/
def desugar_field (src module_path : String) :
    AssignedField → Option AssignedField
  | .requiredValue ⟨lr, lv⟩ spaces ⟨er, ev⟩ => do
    let e ← desugar_expr src module_path ⟨er, ev⟩
    some (.requiredValue ⟨lr, lv⟩ spaces e)
  | .optionalValue ⟨lr, lv⟩ spaces ⟨er, ev⟩ => do
    let e ← desugar_expr src module_path ⟨er, ev⟩
    some (.optionalValue ⟨lr, lv⟩ spaces e)
  | .labelOnly ⟨lr, lv⟩ => do
    let e ← desugar_expr src module_path ⟨lr, .var "" lv 0⟩
    some (.requiredValue ⟨lr, lv⟩ [] e)
  | .spaceBefore field _ => desugar_field src module_path field
  | .spaceAfter field _ => desugar_field src module_path field
  | .malformed s => some (.malformed s)
termination_by f => esizeField f
decreasing_by all_goals
  ((try simp only [esizeExpr, esizeExprList, esizeBinopLefts, esizeIfThens,
    esizeBranchList, esizeGuard, esizeStrLit, esizeSegList, esizeSegLines,
    esizeSeg, esizeField, esizeFieldList, esizeBField, esizeBFieldList,
    esizePat, esizePatList, esizeValueDef, esizeValueDefList]); omega)

/-- Field-list walk of the `Record`/`RecordUpdate` arms of
`desugar_expr`. -/
def desugar_field_list (src module_path : String) :
    List (Loc AssignedField) → Option (List (Loc AssignedField))
  | [] => some []
  | ⟨fr, fv⟩ :: rest => do
    let f ← desugar_field src module_path fv
    let fs ← desugar_field_list src module_path rest
    some (⟨fr, f⟩ :: fs)
termination_by fs => esizeFieldList fs
decreasing_by all_goals
  ((try simp only [esizeExpr, esizeExprList, esizeBinopLefts, esizeIfThens,
    esizeBranchList, esizeGuard, esizeStrLit, esizeSegList, esizeSegLines,
    esizeSeg, esizeField, esizeFieldList, esizeBField, esizeBFieldList,
    esizePat, esizePatList, esizeValueDef, esizeValueDefList]); omega)

/-- Function `desugar_loc_patterns` from `desugar.rs` (also the identical
inline pattern-list loops of `desugar_pattern`). -/
def desugar_loc_patterns (src module_path : String) :
    List (Loc Pattern) → Option (List (Loc Pattern))
  | [] => some []
  | ⟨pr, pv⟩ :: rest => do
    let p ← desugar_pattern src module_path pv
    let ps ← desugar_loc_patterns src module_path rest
    some (⟨pr, p⟩ :: ps)
termination_by ps => esizePatList ps
decreasing_by all_goals
  ((try simp only [esizeExpr, esizeExprList, esizeBinopLefts, esizeIfThens,
    esizeBranchList, esizeGuard, esizeStrLit, esizeSegList, esizeSegLines,
    esizeSeg, esizeField, esizeFieldList, esizeBField, esizeBFieldList,
    esizePat, esizePatList, esizeValueDef, esizeValueDefList]); omega)

/-- Function `desugar_loc_pattern` from `desugar.rs`. -/
def desugar_loc_pattern (src module_path : String) :
    Loc Pattern → Option (Loc Pattern)
  | ⟨pr, pv⟩ => do
    let p ← desugar_pattern src module_path pv
    some ⟨pr, p⟩
termination_by lp => esizePat lp.value + 1
decreasing_by all_goals
  ((try simp only [esizeExpr, esizeExprList, esizeBinopLefts, esizeIfThens,
    esizeBranchList, esizeGuard, esizeStrLit, esizeSegList, esizeSegLines,
    esizeSeg, esizeField, esizeFieldList, esizeBField, esizeBFieldList,
    esizePat, esizePatList, esizeValueDef, esizeValueDefList]); omega)

/-- Function `desugar_pattern` from `desugar.rs`. -/
def desugar_pattern (src module_path : String) : Pattern → Option Pattern
  | .identifier i sfx => some (.identifier i sfx)
  | .tag s => some (.tag s)
  | .opaqRef s => some (.opaqRef s)
  | .numLiteral s => some (.numLiteral s)
  | .nonBase10Literal s b n => some (.nonBase10Literal s b n)
  | .floatLiteral s => some (.floatLiteral s)
  | .strLiteral lit => some (.strLiteral lit)
  | .underscore s => some (.underscore s)
  | .singleQuote s => some (.singleQuote s)
  | .listRest a => some (.listRest a)
  | .malformed s => some (.malformed s)
  | .malformedIdent s => some (.malformedIdent s)
  | .qualifiedIdentifier m i => some (.qualifiedIdentifier m i)
  | .apply tag arg_patterns => do
    -- Skip desugaring the tag, it should either be a Tag or OpaqueRef
    let args ← desugar_loc_patterns src module_path arg_patterns
    some (.apply tag args)
  | .recordDestructure field_patterns => do
    let fs ← desugar_loc_patterns src module_path field_patterns
    some (.recordDestructure fs)
  | .requiredField name ⟨pr, pv⟩ => do
    let p ← desugar_loc_pattern src module_path ⟨pr, pv⟩
    some (.requiredField name p)
  | .optionalField name ⟨er, ev⟩ => do
    let e ← desugar_expr src module_path ⟨er, ev⟩
    some (.optionalField name e)
  | .tuple patterns => do
    let ps ← desugar_loc_patterns src module_path patterns
    some (.tuple ps)
  | .list patterns => do
    let ps ← desugar_loc_patterns src module_path patterns
    some (.list ps)
  | .as_ ⟨pr, pv⟩ ident => do
    let p ← desugar_loc_pattern src module_path ⟨pr, pv⟩
    some (.as_ p ident)
  | .spaceBefore sub _ => desugar_pattern src module_path sub
  | .spaceAfter sub _ => desugar_pattern src module_path sub
termination_by p => esizePat p
decreasing_by all_goals
  ((try simp only [esizeExpr, esizeExprList, esizeBinopLefts, esizeIfThens,
    esizeBranchList, esizeGuard, esizeStrLit, esizeSegList, esizeSegLines,
    esizeSeg, esizeField, esizeFieldList, esizeBField, esizeBFieldList,
    esizePat, esizePatList, esizeValueDef, esizeValueDefList]); omega)

/-- Branch loop of the `When` arm of `desugar_expr`. -/
def desugar_when_branches (src module_path : String) :
    List WhenBranch → Option (List WhenBranch)
  | [] => some []
  | .mk patterns ⟨vr, vv⟩ guard :: rest => do
    let v ← desugar_expr src module_path ⟨vr, vv⟩
    let ps ← desugar_loc_patterns src module_path patterns
    let g ← match guard with
      | none => some none
      | some ⟨gr, gv⟩ => do
        let dg ← desugar_expr src module_path ⟨gr, gv⟩
        some (some dg)
    let bs ← desugar_when_branches src module_path rest
    some (.mk ps v g :: bs)
termination_by bs => esizeBranchList bs
decreasing_by all_goals
  ((try simp only [esizeExpr, esizeExprList, esizeBinopLefts, esizeIfThens,
    esizeBranchList, esizeGuard, esizeStrLit, esizeSegList, esizeSegLines,
    esizeSeg, esizeField, esizeFieldList, esizeBField, esizeBFieldList,
    esizePat, esizePatList, esizeValueDef, esizeValueDefList]); omega)

/-- Condition/branch loop of the `If` arm of `desugar_expr`. -/
def desugar_if_thens (src module_path : String) :
    List (Loc Expr × Loc Expr) → Option (List (Loc Expr × Loc Expr))
  | [] => some []
  | (⟨cr, cv⟩, ⟨tr, tv⟩) :: rest => do
    let c ← desugar_expr src module_path ⟨cr, cv⟩
    let t ← desugar_expr src module_path ⟨tr, tv⟩
    let ts ← desugar_if_thens src module_path rest
    some ((c, t) :: ts)
termination_by ts => esizeIfThens ts
decreasing_by all_goals
  ((try simp only [esizeExpr, esizeExprList, esizeBinopLefts, esizeIfThens,
    esizeBranchList, esizeGuard, esizeStrLit, esizeSegList, esizeSegLines,
    esizeSeg, esizeField, esizeFieldList, esizeBField, esizeBFieldList,
    esizePat, esizePatList, esizeValueDef, esizeValueDefList]); omega)

end

/-! ## Specification-side notions used to state the claims

`substExpr` and `apply_closures` formalize "applying a closure to an
argument" (capture-naive syntactic substitution of the parameter variable),
used to state the record-builder field-count invariant; the `canonical*`
predicates formalize "tree containing no derived-syntax variants" for the
idempotence claim; the label extractors read field labels through space
trivia. -/

mutual

/-- Substitute `rep` for every occurrence of the bare variable `name`
(module-less, suffix 0). -/
def substExpr (name : String) (rep : Expr) : Expr → Expr
  | .var m i sfx =>
    if m = "" ∧ i = name ∧ sfx = 0 then rep else .var m i sfx
  | .float s => .float s
  | .num s => .num s
  | .nonBase10Int s b n => .nonBase10Int s b n
  | .singleQuote s => .singleQuote s
  | .accessorFunction a => .accessorFunction a
  | .underscore s => .underscore s
  | .crash => .crash
  | .tag s => .tag s
  | .opaqRef s => .opaqRef s
  | .ingestedFile p ann => .ingestedFile p ann
  | .malformedIdent s => .malformedIdent s
  | .malformedClosure => .malformedClosure
  | .precedenceConflict wr p1 p2 o1 o2 ⟨er, ev⟩ =>
    .precedenceConflict wr p1 p2 o1 o2 ⟨er, substExpr name rep ev⟩
  | .multipleRecordBuilders ⟨er, ev⟩ =>
    .multipleRecordBuilders ⟨er, substExpr name rep ev⟩
  | .unappliedRecordBuilder ⟨er, ev⟩ =>
    .unappliedRecordBuilder ⟨er, substExpr name rep ev⟩
  | .str lit => .str (substStrLit name rep lit)
  | .recordAccess s f => .recordAccess (substExpr name rep s) f
  | .tupleAccess s f => .tupleAccess (substExpr name rep s) f
  | .list items => .list (substExprList name rep items)
  | .record fields => .record (substFieldList name rep fields)
  | .tuple items => .tuple (substExprList name rep items)
  | .recordUpdate ⟨ur, uv⟩ fields =>
    .recordUpdate ⟨ur, substExpr name rep uv⟩ (substFieldList name rep fields)
  | .recordBuilder fields => .recordBuilder (substBFieldList name rep fields)
  | .closure pats ⟨br, bv⟩ => .closure pats ⟨br, substExpr name rep bv⟩
  | .defs vds ⟨rr, rv⟩ =>
    .defs (substValueDefList name rep vds) ⟨rr, substExpr name rep rv⟩
  | .backpassing pats ⟨br, bv⟩ ⟨rr, rv⟩ =>
    .backpassing pats ⟨br, substExpr name rep bv⟩ ⟨rr, substExpr name rep rv⟩
  | .expect ⟨cr, cv⟩ ⟨kr, kv⟩ =>
    .expect ⟨cr, substExpr name rep cv⟩ ⟨kr, substExpr name rep kv⟩
  | .dbg ⟨cr, cv⟩ ⟨kr, kv⟩ =>
    .dbg ⟨cr, substExpr name rep cv⟩ ⟨kr, substExpr name rep kv⟩
  | .lowLevelDbg l s ⟨mr, mv⟩ ⟨kr, kv⟩ =>
    .lowLevelDbg l s ⟨mr, substExpr name rep mv⟩ ⟨kr, substExpr name rep kv⟩
  | .apply ⟨fr, fv⟩ args via =>
    .apply ⟨fr, substExpr name rep fv⟩ (substExprList name rep args) via
  | .binOps lefts ⟨rr, rv⟩ =>
    .binOps (substBinopLefts name rep lefts) ⟨rr, substExpr name rep rv⟩
  | .unaryOp ⟨ar, av⟩ op => .unaryOp ⟨ar, substExpr name rep av⟩ op
  | .if_ thens ⟨er, ev⟩ =>
    .if_ (substIfThens name rep thens) ⟨er, substExpr name rep ev⟩
  | .when ⟨cr, cv⟩ bs =>
    .when ⟨cr, substExpr name rep cv⟩ (substBranchList name rep bs)
  | .parensAround inner => .parensAround (substExpr name rep inner)
  | .spaceBefore inner sp => .spaceBefore (substExpr name rep inner) sp
  | .spaceAfter inner sp => .spaceAfter (substExpr name rep inner) sp

def substExprList (name : String) (rep : Expr) :
    List (Loc Expr) → List (Loc Expr)
  | [] => []
  | ⟨er, ev⟩ :: rest => ⟨er, substExpr name rep ev⟩ :: substExprList name rep rest

def substBinopLefts (name : String) (rep : Expr) :
    List (Loc Expr × Loc BinOp) → List (Loc Expr × Loc BinOp)
  | [] => []
  | (⟨er, ev⟩, op) :: rest =>
    (⟨er, substExpr name rep ev⟩, op) :: substBinopLefts name rep rest

def substIfThens (name : String) (rep : Expr) :
    List (Loc Expr × Loc Expr) → List (Loc Expr × Loc Expr)
  | [] => []
  | (⟨cr, cv⟩, ⟨tr, tv⟩) :: rest =>
    (⟨cr, substExpr name rep cv⟩, ⟨tr, substExpr name rep tv⟩) ::
      substIfThens name rep rest

def substBranchList (name : String) (rep : Expr) :
    List WhenBranch → List WhenBranch
  | [] => []
  | .mk pats ⟨vr, vv⟩ guard :: rest =>
    .mk pats ⟨vr, substExpr name rep vv⟩ (substGuard name rep guard) ::
      substBranchList name rep rest

def substGuard (name : String) (rep : Expr) :
    Option (Loc Expr) → Option (Loc Expr)
  | none => none
  | some ⟨gr, gv⟩ => some ⟨gr, substExpr name rep gv⟩

def substStrLit (name : String) (rep : Expr) : StrLiteral → StrLiteral
  | .plainLine s => .plainLine s
  | .line segs => .line (substSegList name rep segs)
  | .block lines => .block (substSegLines name rep lines)

def substSegList (name : String) (rep : Expr) :
    List StrSegment → List StrSegment
  | [] => []
  | .plaintext s :: rest => .plaintext s :: substSegList name rep rest
  | .unicode u :: rest => .unicode u :: substSegList name rep rest
  | .escapedChar c :: rest => .escapedChar c :: substSegList name rep rest
  | .deprecatedInterpolated ⟨er, ev⟩ :: rest =>
    .deprecatedInterpolated ⟨er, substExpr name rep ev⟩ ::
      substSegList name rep rest
  | .interpolated ⟨er, ev⟩ :: rest =>
    .interpolated ⟨er, substExpr name rep ev⟩ :: substSegList name rep rest

def substSegLines (name : String) (rep : Expr) :
    List (List StrSegment) → List (List StrSegment)
  | [] => []
  | l :: rest => substSegList name rep l :: substSegLines name rep rest

def substField (name : String) (rep : Expr) : AssignedField → AssignedField
  | .requiredValue label spaces ⟨er, ev⟩ =>
    .requiredValue label spaces ⟨er, substExpr name rep ev⟩
  | .optionalValue label spaces ⟨er, ev⟩ =>
    .optionalValue label spaces ⟨er, substExpr name rep ev⟩
  | .labelOnly label => .labelOnly label
  | .spaceBefore f sp => .spaceBefore (substField name rep f) sp
  | .spaceAfter f sp => .spaceAfter (substField name rep f) sp
  | .malformed s => .malformed s

def substFieldList (name : String) (rep : Expr) :
    List (Loc AssignedField) → List (Loc AssignedField)
  | [] => []
  | ⟨fr, fv⟩ :: rest => ⟨fr, substField name rep fv⟩ :: substFieldList name rep rest

def substBField (name : String) (rep : Expr) :
    RecordBuilderField → RecordBuilderField
  | .value label spaces ⟨er, ev⟩ =>
    .value label spaces ⟨er, substExpr name rep ev⟩
  | .applyValue label sp1 sp2 ⟨er, ev⟩ =>
    .applyValue label sp1 sp2 ⟨er, substExpr name rep ev⟩
  | .labelOnly label => .labelOnly label
  | .spaceBefore f sp => .spaceBefore (substBField name rep f) sp
  | .spaceAfter f sp => .spaceAfter (substBField name rep f) sp
  | .malformed s => .malformed s

def substBFieldList (name : String) (rep : Expr) :
    List (Loc RecordBuilderField) → List (Loc RecordBuilderField)
  | [] => []
  | ⟨fr, fv⟩ :: rest =>
    ⟨fr, substBField name rep fv⟩ :: substBFieldList name rep rest

def substValueDef (name : String) (rep : Expr) : ValueDef → ValueDef
  | .body pat ⟨er, ev⟩ => .body pat ⟨er, substExpr name rep ev⟩
  | .annotationDecl pat ann => .annotationDecl pat ann
  | .annotatedBody ap at_ c bp ⟨er, ev⟩ =>
    .annotatedBody ap at_ c bp ⟨er, substExpr name rep ev⟩
  | .dbg ⟨cr, cv⟩ pc => .dbg ⟨cr, substExpr name rep cv⟩ pc
  | .expect ⟨cr, cv⟩ pc => .expect ⟨cr, substExpr name rep cv⟩ pc
  | .expectFx ⟨cr, cv⟩ pc => .expectFx ⟨cr, substExpr name rep cv⟩ pc
  | .stmt ⟨er, ev⟩ => .stmt ⟨er, substExpr name rep ev⟩

def substValueDefList (name : String) (rep : Expr) :
    List ValueDef → List ValueDef
  | [] => []
  | d :: rest => substValueDef name rep d :: substValueDefList name rep rest

end

/-- Apply a chain of nested single-identifier-parameter closures to a list
of argument expressions, one closure level per argument, by substitution. -/
def apply_closures : Expr → List Expr → Option Expr
  | e, [] => some e
  | .closure [⟨_, .identifier n _⟩] ⟨_, body⟩, a :: rest =>
    apply_closures (substExpr n a body) rest
  | _, _ :: _ => none
termination_by e args => args.length

/-- Number of nested closure levels at the root of an expression. -/
def closure_depth : Expr → Nat
  | .closure _ ⟨_, b⟩ => closure_depth b + 1
  | _ => 0

/-- Number of applicative (`ApplyValue`) fields of a record builder,
looking through space trivia. -/
def count_applicative_field : RecordBuilderField → Nat
  | .applyValue .. => 1
  | .spaceBefore f _ => count_applicative_field f
  | .spaceAfter f _ => count_applicative_field f
  | _ => 0

/-- Total number of applicative fields of a record-builder field list. -/
def count_applicative : List (Loc RecordBuilderField) → Nat
  | [] => 0
  | f :: rest => count_applicative_field f.value + count_applicative rest

/-- Label of an assigned field, looking through space trivia (`none` for a
malformed field). -/
def assigned_field_label : AssignedField → Option String
  | .requiredValue label _ _ => some label.value
  | .optionalValue label _ _ => some label.value
  | .labelOnly label => some label.value
  | .spaceBefore f _ => assigned_field_label f
  | .spaceAfter f _ => assigned_field_label f
  | .malformed _ => none

/-- Label of a record-builder field, looking through space trivia (`none`
for a malformed field). -/
def builder_field_label : RecordBuilderField → Option String
  | .value label _ _ => some label.value
  | .applyValue label _ _ _ => some label.value
  | .labelOnly label => some label.value
  | .spaceBefore f _ => builder_field_label f
  | .spaceAfter f _ => builder_field_label f
  | .malformed _ => none

/-- Original expression of an applicative record-builder field, looking
through space trivia. -/
def applicative_field_expr : RecordBuilderField → Option (Loc Expr)
  | .applyValue _ _ _ e => some e
  | .spaceBefore f _ => applicative_field_expr f
  | .spaceAfter f _ => applicative_field_expr f
  | _ => none

/-- The original applicative field expressions of a record builder, in
field-declaration order. -/
def applicative_field_exprs : List (Loc RecordBuilderField) → List (Loc Expr)
  | [] => []
  | f :: rest =>
    match applicative_field_expr f.value with
    | some e => e :: applicative_field_exprs rest
    | none => applicative_field_exprs rest

/-! Canonical-input predicate for the idempotence claim.

A tree "contains no derived-syntax variants" when none of the shapes the
desugarer rewrites occur in it: operator chains (`BinOps`), backpassing,
record builders, unary operators, trivia wrappers (`SpaceBefore` /
`SpaceAfter` on expressions, patterns and fields), bare statements
(`ValueDef::Stmt`), label-punning fields (`LabelOnly`, desugared
`{ x }` into `{ x: x }`), and debug-trace statements (`Dbg`, desugared into
`LowLevelDbg`).  The `strict` flag additionally rejects local-definition
blocks (`Defs`) and `LowLevelDbg` nodes — the two canonical shapes on
which `desugar_expr` nevertheless panics (`todo!()` in
`unwrap_suffixed_expression`, `unreachable!` on `LowLevelDbg`); with
`strict := false` the predicate states the claim, with `strict := true`
the amended claim. -/

mutual

def canonicalExpr (strict : Bool) : Expr → Bool
  | .float _ | .num _ | .nonBase10Int .. | .singleQuote _
  | .accessorFunction _ | .var .. | .underscore _ | .crash | .tag _
  | .opaqRef _ | .ingestedFile .. | .malformedIdent _ | .malformedClosure
  | .precedenceConflict .. | .multipleRecordBuilders _
  | .unappliedRecordBuilder _ => true
  | .str lit => canonicalStrLit strict lit
  | .recordAccess s _ => canonicalExpr strict s
  | .tupleAccess s _ => canonicalExpr strict s
  | .list items => canonicalExprList strict items
  | .record fields => canonicalFieldList strict fields
  | .tuple items => canonicalExprList strict items
  | .recordUpdate ⟨_, u⟩ fields =>
    canonicalExpr strict u && canonicalFieldList strict fields
  | .recordBuilder _ => false
  | .closure pats ⟨_, b⟩ =>
    canonicalPatList strict pats && canonicalExpr strict b
  | .defs vds ⟨_, ret⟩ =>
    !strict && (canonicalValueDefList strict vds && canonicalExpr strict ret)
  | .backpassing .. => false
  | .expect ⟨_, c⟩ ⟨_, k⟩ =>
    canonicalExpr strict c && canonicalExpr strict k
  | .dbg .. => false
  | .lowLevelDbg _ _ ⟨_, m⟩ ⟨_, k⟩ =>
    !strict && (canonicalExpr strict m && canonicalExpr strict k)
  | .apply ⟨_, fn⟩ args _ =>
    canonicalExpr strict fn && canonicalExprList strict args
  | .binOps .. => false
  | .unaryOp .. => false
  | .if_ thens ⟨_, e⟩ =>
    canonicalIfThens strict thens && canonicalExpr strict e
  | .when ⟨_, c⟩ bs =>
    canonicalExpr strict c && canonicalBranchList strict bs
  | .parensAround inner => canonicalExpr strict inner
  | .spaceBefore .. => false
  | .spaceAfter .. => false

def canonicalExprList (strict : Bool) : List (Loc Expr) → Bool
  | [] => true
  | ⟨_, v⟩ :: rest => canonicalExpr strict v && canonicalExprList strict rest

def canonicalIfThens (strict : Bool) : List (Loc Expr × Loc Expr) → Bool
  | [] => true
  | (⟨_, c⟩, ⟨_, t⟩) :: rest =>
    canonicalExpr strict c && canonicalExpr strict t &&
      canonicalIfThens strict rest

def canonicalBranchList (strict : Bool) : List WhenBranch → Bool
  | [] => true
  | .mk pats ⟨_, v⟩ guard :: rest =>
    canonicalPatList strict pats && canonicalExpr strict v &&
      canonicalGuard strict guard && canonicalBranchList strict rest

def canonicalGuard (strict : Bool) : Option (Loc Expr) → Bool
  | none => true
  | some ⟨_, v⟩ => canonicalExpr strict v

def canonicalStrLit (strict : Bool) : StrLiteral → Bool
  | .plainLine _ => true
  | .line segs => canonicalSegList strict segs
  | .block lines => canonicalSegLines strict lines

def canonicalSegList (strict : Bool) : List StrSegment → Bool
  | [] => true
  | s :: rest => canonicalSeg strict s && canonicalSegList strict rest

def canonicalSegLines (strict : Bool) : List (List StrSegment) → Bool
  | [] => true
  | l :: rest => canonicalSegList strict l && canonicalSegLines strict rest

def canonicalSeg (strict : Bool) : StrSegment → Bool
  | .plaintext _ | .unicode _ | .escapedChar _ => true
  | .deprecatedInterpolated ⟨_, v⟩ => canonicalExpr strict v
  | .interpolated ⟨_, v⟩ => canonicalExpr strict v

def canonicalField (strict : Bool) : AssignedField → Bool
  | .requiredValue _ _ ⟨_, v⟩ => canonicalExpr strict v
  | .optionalValue _ _ ⟨_, v⟩ => canonicalExpr strict v
  | .labelOnly _ => false
  | .spaceBefore .. => false
  | .spaceAfter .. => false
  | .malformed _ => true

def canonicalFieldList (strict : Bool) : List (Loc AssignedField) → Bool
  | [] => true
  | ⟨_, f⟩ :: rest => canonicalField strict f && canonicalFieldList strict rest

def canonicalPat (strict : Bool) : Pattern → Bool
  | .identifier .. | .tag _ | .opaqRef _ | .numLiteral _
  | .nonBase10Literal .. | .floatLiteral _ | .strLiteral _ | .underscore _
  | .singleQuote _ | .listRest _ | .malformed _ | .malformedIdent _
  | .qualifiedIdentifier .. => true
  | .apply _ args => canonicalPatList strict args
  | .recordDestructure fields => canonicalPatList strict fields
  | .requiredField _ ⟨_, p⟩ => canonicalPat strict p
  | .optionalField _ ⟨_, e⟩ => canonicalExpr strict e
  | .tuple pats => canonicalPatList strict pats
  | .list pats => canonicalPatList strict pats
  | .as_ ⟨_, p⟩ _ => canonicalPat strict p
  | .spaceBefore .. => false
  | .spaceAfter .. => false

def canonicalPatList (strict : Bool) : List (Loc Pattern) → Bool
  | [] => true
  | ⟨_, p⟩ :: rest => canonicalPat strict p && canonicalPatList strict rest

def canonicalValueDef (strict : Bool) : ValueDef → Bool
  | .body ⟨_, p⟩ ⟨_, e⟩ => canonicalPat strict p && canonicalExpr strict e
  | .annotationDecl _ _ => true
  | .annotatedBody _ _ _ _ ⟨_, e⟩ => canonicalExpr strict e
  | .dbg ⟨_, c⟩ _ => canonicalExpr strict c
  | .expect ⟨_, c⟩ _ => canonicalExpr strict c
  | .expectFx ⟨_, c⟩ _ => canonicalExpr strict c
  | .stmt _ => false

def canonicalValueDefList (strict : Bool) : List ValueDef → Bool
  | [] => true
  | d :: rest => canonicalValueDef strict d && canonicalValueDefList strict rest

end

/-- C7: during the subtraction step of constraint validation the two role
invariants are enforced eagerly at the offending `Eq`/`Pattern`/`Store` node:
a lambda-set variable declared rigid, or a recursion variable declared
flexible, fails hard immediately (with the role-specific panic, not the
end-of-walk unbound report), even when further sibling constraints follow. -/
theorem validate_role_invariants_eager (d : Declared) (v w : Nat) (t2 : Ty)
    (a : VariableDetail) (rest : List Constraint) :
    (v ∈ d.rigid_vars →
      validate_help (.eq (tyLambda v) t2) d a =
        .error "lambda set variable is declared as rigid" ∧
      validate_help (.pattern (tyLambda v) t2) d a =
        .error "lambda set variable is declared as rigid" ∧
      validate_help (.store (tyLambda v) w) d a =
        .error "lambda set variable is declared as rigid" ∧
      validate_help_list (.eq (tyLambda v) t2 :: rest) d a =
        .error "lambda set variable is declared as rigid") ∧
    (v ∈ d.flex_vars →
      validate_help (.eq (tyRec v) t2) d a =
        .error "recursion variable is declared as flex" ∧
      validate_help (.pattern (tyRec v) t2) d a =
        .error "recursion variable is declared as flex" ∧
      validate_help (.store (tyRec v) w) d a =
        .error "recursion variable is declared as flex" ∧
      validate_help_list (.eq (tyRec v) t2 :: rest) d a =
        .error "recursion variable is declared as flex") := by
  constructor
  · intro hv
    simp [validate_help, validate_help_list, subtract, Ty.variables_detail,
      tyLambda, subtractTypeVars, subtractLambdaSetVars, subtractRecursionVars,
      hv, Except.bind]
  · intro hv
    simp [validate_help, validate_help_list, subtract, Ty.variables_detail,
      tyRec, subtractTypeVars, subtractLambdaSetVars, subtractRecursionVars,
      hv, Except.bind]

/-- Witness for `validate_role_invariants_eager` at concrete inputs. -/
theorem validate_role_invariants_eager_witness :
    validate_help (.eq (tyLambda 5) tyEmpty) ⟨[5], []⟩ ⟨[], [], []⟩ =
      .error "lambda set variable is declared as rigid" ∧
    validate_help (.eq (tyRec 7) tyEmpty) ⟨[], [7]⟩ ⟨[], [], []⟩ =
      .error "recursion variable is declared as flex" :=
  ⟨((validate_role_invariants_eager ⟨[5], []⟩ 5 0 tyEmpty ⟨[], [], []⟩ []).1
      (by simp)).1,
   ((validate_role_invariants_eager ⟨[], [7]⟩ 7 0 tyEmpty ⟨[], [], []⟩ []).2
      (by simp)).1⟩

/-- C8: validation starts from an empty declared scope; a `Let` node extends
the scope with its rigid and flexible variables and recurses into both the
defs and body sub-constraints with the same extended scope; variables
declared rigid or flexible in an enclosing `Let` are never reported unbound
(the positive case validates with zero unbound variables and returns
success); and a variable left in any of the three unbound buckets after the
walk makes validation fail hard. -/
theorem validate_let_scoping (v : Nat) :
    Constraint.validate (.let_ [v] [] [] .true_ (.eq (tyVar v) (tyVar v))) =
      .ok true ∧
    Constraint.validate
        (.let_ [] [v] [] (.eq (tyVar v) tyEmpty) (.eq (tyVar v) tyEmpty)) =
      .ok true ∧
    Constraint.validate (.eq (tyVar v) tyEmpty) =
      .error "found unbound type variables" ∧
    Constraint.validate (.eq (tyLambda v) tyEmpty) =
      .error "found unbound lambda set variables" ∧
    Constraint.validate (.eq (tyRec v) tyEmpty) =
      .error "found unbound recursion variables" ∧
    (∀ rigid flex dts dc rc d a,
      validate_help (.let_ rigid flex dts dc rc) d a =
        (validate_help dc
            ⟨rigid.foldl (fun s w => s.insert w) d.rigid_vars,
             flex.foldl (fun s w => s.insert w) d.flex_vars⟩ a).bind
          (fun a2 =>
            validate_help rc
              ⟨rigid.foldl (fun s w => s.insert w) d.rigid_vars,
               flex.foldl (fun s w => s.insert w) d.flex_vars⟩ a2)) := by
  refine ⟨?_, ?_, ?_, ?_, ?_, ?_⟩
  · simp [Constraint.validate, validate_help, subtract, Ty.variables_detail,
      tyVar, Declared.empty, subtractTypeVars, subtractLambdaSetVars,
      subtractRecursionVars, List.insert, Except.bind]
  · simp [Constraint.validate, validate_help, subtract, Ty.variables_detail,
      tyVar, tyEmpty, Declared.empty, subtractTypeVars, subtractLambdaSetVars,
      subtractRecursionVars, List.insert, Except.bind]
  · simp [Constraint.validate, validate_help, subtract, Ty.variables_detail,
      tyVar, tyEmpty, Declared.empty, subtractTypeVars, subtractLambdaSetVars,
      subtractRecursionVars, List.insert, Except.bind]
  · simp [Constraint.validate, validate_help, subtract, Ty.variables_detail,
      tyLambda, tyEmpty, Declared.empty, subtractTypeVars,
      subtractLambdaSetVars, subtractRecursionVars, List.insert, Except.bind]
  · simp [Constraint.validate, validate_help, subtract, Ty.variables_detail,
      tyRec, tyEmpty, Declared.empty, subtractTypeVars, subtractLambdaSetVars,
      subtractRecursionVars, List.insert, Except.bind]
  · intro rigid flex dts dc rc d a
    cases h : validate_help dc
        ⟨rigid.foldl (fun s w => s.insert w) d.rigid_vars,
         flex.foldl (fun s w => s.insert w) d.flex_vars⟩ a with
    | error e => simp [validate_help, h, Except.bind]
    | ok a2 => simp [validate_help, h, Except.bind]

/-- C10: for a `Store` constraint the stored-into variable itself is checked:
it lands in the unbound-type-variables bucket exactly when it is not in the
declared flexible set.  A rigid declaration binds occurrences inside the
referenced type term but does not bind the store target, so a `Let` that
declares the variable rigid still fails while a flexible declaration
succeeds. -/
theorem validate_store_target_needs_flex (d : Declared) (v : Nat) :
    validate_help (.store tyEmpty v) d ⟨[], [], []⟩ =
      .ok ⟨if v ∈ d.flex_vars then [] else [v], [], []⟩ ∧
    Constraint.validate (.let_ [v] [] [] .true_ (.store (tyVar v) v)) =
      .error "found unbound type variables" ∧
    Constraint.validate (.let_ [] [v] [] .true_ (.store (tyVar v) v)) =
      .ok true := by
  refine ⟨?_, ?_, ?_⟩
  · by_cases hv : v ∈ d.flex_vars <;>
      simp [validate_help, subtract, Ty.variables_detail, tyEmpty,
        subtractTypeVars, subtractLambdaSetVars, subtractRecursionVars,
        List.insert, hv, Except.bind]
  · simp [Constraint.validate, validate_help, subtract, Ty.variables_detail,
      tyVar, Declared.empty, subtractTypeVars, subtractLambdaSetVars,
      subtractRecursionVars, List.insert, Except.bind]
  · simp [Constraint.validate, validate_help, subtract, Ty.variables_detail,
      tyVar, Declared.empty, subtractTypeVars, subtractLambdaSetVars,
      subtractRecursionVars, List.insert, Except.bind]

/-! ## Helper unfolding lemmas for the desugaring functions

`run_binop_step` and `desugar_apply_args` are defined with
equation-carrying matches (needed for their termination proofs); these
lemmas restate their bodies with plain matches so that concrete inputs
reduce by `simp`. -/

theorem run_binop_step_eq (whole_region : Region) (arg_stack : List (Loc Expr))
    (op_stack : List (Loc BinOp)) (next_op : Loc BinOp) :
    run_binop_step whole_region arg_stack op_stack next_op =
      match binop_step whole_region arg_stack op_stack next_op with
      | none => none
      | some (.error problem, _, _) => some (.error problem)
      | some (.push op, args, ops) => run_binop_step whole_region args ops op
      | some (.skip, args, ops) => some (.ok (args, ops)) := by
  rw [run_binop_step]
  split <;> rename_i heq <;> rw [heq]

theorem desugar_apply_args_eq (src module_path : String) (orig : Loc Expr)
    (argr : Region) (argv : Expr) (rest : List (Loc Expr))
    (builder_apply_exprs : Option (List (Loc Expr))) :
    desugar_apply_args src module_path orig (⟨argr, argv⟩ :: rest)
        builder_apply_exprs =
      (match arg_find_builder argv with
      | some fields =>
        if builder_apply_exprs.isSome then
          some (.error ⟨orig.region, .multipleRecordBuilders orig⟩)
        else do
          let builder_arg := record_builder_arg argr fields
          let d ← desugar_expr src module_path builder_arg.closure
          let exprs ← desugar_expr_list src module_path builder_arg.apply_exprs
          match ← desugar_apply_args src module_path orig rest (some exprs) with
          | .error e => some (.error e)
          | .ok (ds, st) => some (.ok (d :: ds, st))
      | none => do
        let d ← desugar_expr src module_path ⟨argr, argv⟩
        match ← desugar_apply_args src module_path orig rest
            builder_apply_exprs with
        | .error e => some (.error e)
        | .ok (ds, st) => some (.ok (d :: ds, st))) := by
  rw [desugar_apply_args]
  split <;> rename_i heq <;> rw [heq]

theorem desugar_apply_args_nil (src module_path : String) (orig : Loc Expr)
    (builder_apply_exprs : Option (List (Loc Expr))) :
    desugar_apply_args src module_path orig [] builder_apply_exprs =
      some (.ok ([], builder_apply_exprs)) := by
  rw [desugar_apply_args]

/-- Atom lemma: desugaring leaves a variable reference unchanged. -/
theorem desugar_expr_var (src mp : String) (r : Region) (m i : String)
    (sfx : Nat) :
    desugar_expr src mp ⟨r, .var m i sfx⟩ = some ⟨r, .var m i sfx⟩ := by
  simp [desugar_expr]

/-- Arm lemma: a `BinOps` chain is handed to `desugar_bin_ops`. -/
theorem desugar_expr_binops (src mp : String) (r : Region)
    (lefts : List (Loc Expr × Loc BinOp)) (rr : Region) (rv : Expr) :
    desugar_expr src mp ⟨r, .binOps lefts ⟨rr, rv⟩⟩ =
      desugar_bin_ops src mp r lefts ⟨rr, rv⟩ := by
  simp [desugar_expr]

/-- Arm lemma: an application whose argument scan found no record builder
desugars the callee and arguments in place. -/
theorem desugar_expr_apply_ok (src mp : String) (r fr : Region) (fv : Expr)
    (args : List (Loc Expr)) (via : CalledVia) (args' : List (Loc Expr))
    (fn' : Loc Expr)
    (h1 : desugar_apply_args src mp ⟨r, .apply ⟨fr, fv⟩ args via⟩ args none =
      some (.ok (args', none)))
    (h2 : desugar_expr src mp ⟨fr, fv⟩ = some fn') :
    desugar_expr src mp ⟨r, .apply ⟨fr, fv⟩ args via⟩ =
      some ⟨r, .apply fn' args' via⟩ := by
  simp [desugar_expr, h1, h2]

/-- C1: binary-operator chains are resolved by precedence and associativity:
`a + b * c` desugars to the application equivalent of `a + (b * c)`;
the equal-precedence left-associative chain `a - b - c` desugars to
`(a - b) - c` (as `desugar_expr` is a function, this single output also
shows it never produces `a - (b - c)`); the equal-precedence
non-associative chain `a == b == c` desugars to a `PrecedenceConflict`
marker node carrying both operators, not to a nested application. -/
theorem desugar_binop_chain_precedence (src mp : String)
    (r ra rb rc r1 r2 : Region) (a b c : String) :
    desugar_expr src mp ⟨r, .binOps
        [(⟨ra, .var "" a 0⟩, ⟨r1, .plus⟩), (⟨rb, .var "" b 0⟩, ⟨r2, .star⟩)]
        ⟨rc, .var "" c 0⟩⟩ =
      some ⟨⟨ra.start, rc.stop⟩, .apply ⟨r1, .var "Num" "add" 0⟩
        [⟨ra, .var "" a 0⟩,
         ⟨⟨rb.start, rc.stop⟩, .apply ⟨r2, .var "Num" "mul" 0⟩
           [⟨rb, .var "" b 0⟩, ⟨rc, .var "" c 0⟩] (.binOp .star)⟩]
        (.binOp .plus)⟩ ∧
    desugar_expr src mp ⟨r, .binOps
        [(⟨ra, .var "" a 0⟩, ⟨r1, .minus⟩), (⟨rb, .var "" b 0⟩, ⟨r2, .minus⟩)]
        ⟨rc, .var "" c 0⟩⟩ =
      some ⟨⟨ra.start, rc.stop⟩, .apply ⟨r2, .var "Num" "sub" 0⟩
        [⟨⟨ra.start, rb.stop⟩, .apply ⟨r1, .var "Num" "sub" 0⟩
           [⟨ra, .var "" a 0⟩, ⟨rb, .var "" b 0⟩] (.binOp .minus)⟩,
         ⟨rc, .var "" c 0⟩]
        (.binOp .minus)⟩ ∧
    desugar_expr src mp ⟨r, .binOps
        [(⟨ra, .var "" a 0⟩, ⟨r1, .equals⟩), (⟨rb, .var "" b 0⟩, ⟨r2, .equals⟩)]
        ⟨rc, .var "" c 0⟩⟩ =
      some ⟨⟨ra.start, rb.stop⟩, .precedenceConflict r r1.start r2.start
        .equals .equals
        ⟨⟨ra.start, rb.stop⟩, .apply ⟨r1, .var "Bool" "isEq" 0⟩
          [⟨ra, .var "" a 0⟩, ⟨rb, .var "" b 0⟩] (.binOp .equals)⟩⟩ := by
  refine ⟨?_, ?_, ?_⟩
  · have h1 : run_binop_step r [⟨ra, .var "" a 0⟩] [] ⟨r1, .plus⟩ =
        some (.ok ([⟨ra, .var "" a 0⟩], [⟨r1, .plus⟩])) := by
      simp [run_binop_step_eq, binop_step]
    have h2 : run_binop_step r [⟨rb, .var "" b 0⟩, ⟨ra, .var "" a 0⟩]
        [⟨r1, .plus⟩] ⟨r2, .star⟩ =
        some (.ok ([⟨rb, .var "" b 0⟩, ⟨ra, .var "" a 0⟩],
          [⟨r2, .star⟩, ⟨r1, .plus⟩])) := by
      simp [run_binop_step_eq, binop_step,
        show BinOp.cmp .star .plus = .gt from by decide]
    have hl : desugar_bin_ops_lefts src mp r
        [(⟨ra, .var "" a 0⟩, ⟨r1, .plus⟩), (⟨rb, .var "" b 0⟩, ⟨r2, .star⟩)]
        [] [] =
        some (.ok ([⟨rb, .var "" b 0⟩, ⟨ra, .var "" a 0⟩],
          [⟨r2, .star⟩, ⟨r1, .plus⟩])) := by
      simp [desugar_bin_ops_lefts, desugar_expr_var, h1, h2]
    have hc : binops_combine [⟨rb, .var "" b 0⟩, ⟨ra, .var "" a 0⟩]
        [⟨r2, .star⟩, ⟨r1, .plus⟩] ⟨rc, .var "" c 0⟩ =
        some ⟨⟨ra.start, rc.stop⟩, .apply ⟨r1, .var "Num" "add" 0⟩
          [⟨ra, .var "" a 0⟩,
           ⟨⟨rb.start, rc.stop⟩, .apply ⟨r2, .var "Num" "mul" 0⟩
             [⟨rb, .var "" b 0⟩, ⟨rc, .var "" c 0⟩] (.binOp .star)⟩]
          (.binOp .plus)⟩ := by
      simp [binops_combine, new_op_call_expr, binop_to_function,
        Region.span_across, moduleNameNum, List.foldlM, List.zip,
        List.zipWith]
    rw [desugar_expr_binops]
    simp [desugar_bin_ops, hl, hc, desugar_expr_var]
  · have h1 : run_binop_step r [⟨ra, .var "" a 0⟩] [] ⟨r1, .minus⟩ =
        some (.ok ([⟨ra, .var "" a 0⟩], [⟨r1, .minus⟩])) := by
      simp [run_binop_step_eq, binop_step]
    have h2 : run_binop_step r [⟨rb, .var "" b 0⟩, ⟨ra, .var "" a 0⟩]
        [⟨r1, .minus⟩] ⟨r2, .minus⟩ =
        some (.ok ([⟨⟨ra.start, rb.stop⟩, .apply ⟨r1, .var "Num" "sub" 0⟩
            [⟨ra, .var "" a 0⟩, ⟨rb, .var "" b 0⟩] (.binOp .minus)⟩],
          [⟨r2, .minus⟩])) := by
      simp [run_binop_step_eq, binop_step, new_op_call_expr,
        binop_to_function, Region.span_across, moduleNameNum,
        show BinOp.cmp .minus .minus = .eq from by decide,
        show BinOp.associativity .minus = .leftAssociative from by decide]
    have hl : desugar_bin_ops_lefts src mp r
        [(⟨ra, .var "" a 0⟩, ⟨r1, .minus⟩), (⟨rb, .var "" b 0⟩, ⟨r2, .minus⟩)]
        [] [] =
        some (.ok ([⟨⟨ra.start, rb.stop⟩, .apply ⟨r1, .var "Num" "sub" 0⟩
            [⟨ra, .var "" a 0⟩, ⟨rb, .var "" b 0⟩] (.binOp .minus)⟩],
          [⟨r2, .minus⟩])) := by
      simp [desugar_bin_ops_lefts, desugar_expr_var, h1, h2]
    have hc : binops_combine [⟨⟨ra.start, rb.stop⟩,
          .apply ⟨r1, .var "Num" "sub" 0⟩
            [⟨ra, .var "" a 0⟩, ⟨rb, .var "" b 0⟩] (.binOp .minus)⟩]
        [⟨r2, .minus⟩] ⟨rc, .var "" c 0⟩ =
        some ⟨⟨ra.start, rc.stop⟩, .apply ⟨r2, .var "Num" "sub" 0⟩
          [⟨⟨ra.start, rb.stop⟩, .apply ⟨r1, .var "Num" "sub" 0⟩
             [⟨ra, .var "" a 0⟩, ⟨rb, .var "" b 0⟩] (.binOp .minus)⟩,
           ⟨rc, .var "" c 0⟩]
          (.binOp .minus)⟩ := by
      simp [binops_combine, new_op_call_expr, binop_to_function,
        Region.span_across, moduleNameNum, List.foldlM, List.zip,
        List.zipWith]
    rw [desugar_expr_binops]
    simp [desugar_bin_ops, hl, hc, desugar_expr_var]
  · have h1 : run_binop_step r [⟨ra, .var "" a 0⟩] [] ⟨r1, .equals⟩ =
        some (.ok ([⟨ra, .var "" a 0⟩], [⟨r1, .equals⟩])) := by
      simp [run_binop_step_eq, binop_step]
    have h2 : run_binop_step r [⟨rb, .var "" b 0⟩, ⟨ra, .var "" a 0⟩]
        [⟨r1, .equals⟩] ⟨r2, .equals⟩ =
        some (.error ⟨⟨ra.start, rb.stop⟩, .precedenceConflict r
          r1.start r2.start .equals .equals
          ⟨⟨ra.start, rb.stop⟩, .apply ⟨r1, .var "Bool" "isEq" 0⟩
            [⟨ra, .var "" a 0⟩, ⟨rb, .var "" b 0⟩] (.binOp .equals)⟩⟩) := by
      simp [run_binop_step_eq, binop_step, new_op_call_expr,
        binop_to_function, Region.span_across, moduleNameBool,
        show BinOp.cmp .equals .equals = .eq from by decide,
        show BinOp.associativity .equals = .nonAssociative from by decide]
    have hl : desugar_bin_ops_lefts src mp r
        [(⟨ra, .var "" a 0⟩, ⟨r1, .equals⟩), (⟨rb, .var "" b 0⟩, ⟨r2, .equals⟩)]
        [] [] =
        some (.error ⟨⟨ra.start, rb.stop⟩, .precedenceConflict r
          r1.start r2.start .equals .equals
          ⟨⟨ra.start, rb.stop⟩, .apply ⟨r1, .var "Bool" "isEq" 0⟩
            [⟨ra, .var "" a 0⟩, ⟨rb, .var "" b 0⟩] (.binOp .equals)⟩⟩) := by
      simp [desugar_bin_ops_lefts, desugar_expr_var, h1, h2]
    rw [desugar_expr_binops]
    simp [desugar_bin_ops, hl]

/-- C2: the desugaring contract promises a total, panic-free transformation
on well-formed surface trees, but the live `unwrap_suffixed_expression`
(invoked from the `Defs` arm of `desugar_expr` on every local-definition
block) ends in `todo!()`: a definition body that is an ordinary literal,
e.g. the block `x = 1` followed by `x`, reaches that `todo!()` and panics
(modelled as `none`). -/
theorem desugar_defs_literal_body_panics :
    desugar_expr "" "" ⟨⟨0, 2⟩, .defs
        [.body ⟨⟨0, 1⟩, .identifier "x" 0⟩ ⟨⟨1, 2⟩, .num "1"⟩]
        ⟨⟨2, 2⟩, .var "" "x" 0⟩⟩ = none := by
  simp [desugar_expr, desugar_defs_node_values, desugar_value_def,
    desugar_loc_pattern, desugar_pattern, unwrap_suffixed_expression,
    unwrap_suffixed_defs]

/-- C3: the pipe operator splices its left operand in as the first argument:
`a |> f x y` desugars to the same application shape as `f a x y` (the left
operand is prepended to the existing arguments, not appended), and
`a |> f` with a non-application right operand desugars to the shape of
`f a`. -/
theorem desugar_pizza_splice (src mp : String)
    (r ra rp rapp rf rx ry : Region) (a f x y : String) (via : CalledVia) :
    desugar_expr src mp ⟨r, .binOps [(⟨ra, .var "" a 0⟩, ⟨rp, .pizza⟩)]
        ⟨rapp, .apply ⟨rf, .var "" f 0⟩
          [⟨rx, .var "" x 0⟩, ⟨ry, .var "" y 0⟩] via⟩⟩ =
      some ⟨⟨ra.start, rapp.stop⟩, .apply ⟨rf, .var "" f 0⟩
        [⟨ra, .var "" a 0⟩, ⟨rx, .var "" x 0⟩, ⟨ry, .var "" y 0⟩]
        (.binOp .pizza)⟩ ∧
    desugar_expr src mp ⟨r, .binOps [(⟨ra, .var "" a 0⟩, ⟨rp, .pizza⟩)]
        ⟨rf, .var "" f 0⟩⟩ =
      some ⟨⟨ra.start, rf.stop⟩, .apply ⟨rf, .var "" f 0⟩
        [⟨ra, .var "" a 0⟩] (.binOp .pizza)⟩ := by
  have hl : desugar_bin_ops_lefts src mp r
      [(⟨ra, .var "" a 0⟩, ⟨rp, .pizza⟩)] [] [] =
      some (.ok ([⟨ra, .var "" a 0⟩], [⟨rp, .pizza⟩])) := by
    have h1 : run_binop_step r [⟨ra, .var "" a 0⟩] [] ⟨rp, .pizza⟩ =
        some (.ok ([⟨ra, .var "" a 0⟩], [⟨rp, .pizza⟩])) := by
      simp [run_binop_step_eq, binop_step]
    simp [desugar_bin_ops_lefts, desugar_expr_var, h1]
  constructor
  · have ha : desugar_apply_args src mp ⟨rapp, .apply ⟨rf, .var "" f 0⟩
        [⟨rx, .var "" x 0⟩, ⟨ry, .var "" y 0⟩] via⟩
        [⟨rx, .var "" x 0⟩, ⟨ry, .var "" y 0⟩] none =
        some (.ok ([⟨rx, .var "" x 0⟩, ⟨ry, .var "" y 0⟩], none)) := by
      simp [desugar_apply_args_eq, desugar_apply_args_nil, arg_find_builder,
        desugar_expr_var]
    have happ := desugar_expr_apply_ok src mp rapp rf (.var "" f 0)
      [⟨rx, .var "" x 0⟩, ⟨ry, .var "" y 0⟩] via
      [⟨rx, .var "" x 0⟩, ⟨ry, .var "" y 0⟩] ⟨rf, .var "" f 0⟩ ha
      (desugar_expr_var src mp rf "" f 0)
    have hc : binops_combine [⟨ra, .var "" a 0⟩] [⟨rp, .pizza⟩]
        ⟨rapp, .apply ⟨rf, .var "" f 0⟩
          [⟨rx, .var "" x 0⟩, ⟨ry, .var "" y 0⟩] via⟩ =
        some ⟨⟨ra.start, rapp.stop⟩, .apply ⟨rf, .var "" f 0⟩
          [⟨ra, .var "" a 0⟩, ⟨rx, .var "" x 0⟩, ⟨ry, .var "" y 0⟩]
          (.binOp .pizza)⟩ := by
      simp [binops_combine, new_op_call_expr, Region.span_across,
        List.foldlM, List.zip, List.zipWith]
    rw [desugar_expr_binops]
    simp [desugar_bin_ops, hl, happ, hc]
  · have hc : binops_combine [⟨ra, .var "" a 0⟩] [⟨rp, .pizza⟩]
        ⟨rf, .var "" f 0⟩ =
        some ⟨⟨ra.start, rf.stop⟩, .apply ⟨rf, .var "" f 0⟩
          [⟨ra, .var "" a 0⟩] (.binOp .pizza)⟩ := by
      simp [binops_combine, new_op_call_expr, Region.span_across,
        List.foldlM, List.zip, List.zipWith]
    rw [desugar_expr_binops]
    simp [desugar_bin_ops, hl, desugar_expr_var, hc]

/-- C4: backpassing desugars the producer first; if the desugared producer
is an application, the synthesized continuation-closure is appended as an
extra trailing argument (`x <- runEffect a1 a2; useX` becomes
`runEffect a1 a2 (\x -> useX)`); otherwise the producer is applied directly
to the continuation-closure as its sole argument. -/
theorem desugar_backpassing_append (src mp : String)
    (r rx rg ra1 ra2 rapp ru : Region) (g a1 a2 u xname : String)
    (via : CalledVia) :
    desugar_expr src mp ⟨r, .backpassing [⟨rx, .identifier xname 0⟩]
        ⟨rapp, .apply ⟨rg, .var "" g 0⟩
          [⟨ra1, .var "" a1 0⟩, ⟨ra2, .var "" a2 0⟩] via⟩
        ⟨ru, .var "" u 0⟩⟩ =
      some ⟨r, .apply ⟨rg, .var "" g 0⟩
        [⟨ra1, .var "" a1 0⟩, ⟨ra2, .var "" a2 0⟩,
         ⟨r, .closure [⟨rx, .identifier xname 0⟩] ⟨ru, .var "" u 0⟩⟩]
        via⟩ ∧
    desugar_expr src mp ⟨r, .backpassing [⟨rx, .identifier xname 0⟩]
        ⟨rg, .var "" g 0⟩ ⟨ru, .var "" u 0⟩⟩ =
      some ⟨r, .apply ⟨rg, .var "" g 0⟩
        [⟨r, .closure [⟨rx, .identifier xname 0⟩] ⟨ru, .var "" u 0⟩⟩]
        .space⟩ := by
  constructor
  · have ha : desugar_apply_args src mp ⟨rapp, .apply ⟨rg, .var "" g 0⟩
        [⟨ra1, .var "" a1 0⟩, ⟨ra2, .var "" a2 0⟩] via⟩
        [⟨ra1, .var "" a1 0⟩, ⟨ra2, .var "" a2 0⟩] none =
        some (.ok ([⟨ra1, .var "" a1 0⟩, ⟨ra2, .var "" a2 0⟩], none)) := by
      simp [desugar_apply_args_eq, desugar_apply_args_nil, arg_find_builder,
        desugar_expr_var]
    have happ := desugar_expr_apply_ok src mp rapp rg (.var "" g 0)
      [⟨ra1, .var "" a1 0⟩, ⟨ra2, .var "" a2 0⟩] via
      [⟨ra1, .var "" a1 0⟩, ⟨ra2, .var "" a2 0⟩] ⟨rg, .var "" g 0⟩ ha
      (desugar_expr_var src mp rg "" g 0)
    simp [desugar_expr, happ, desugar_expr_var, desugar_loc_patterns,
      desugar_pattern]
  · simp [desugar_expr, desugar_expr_var, desugar_loc_patterns,
      desugar_pattern]

/-- C6: a call carrying two record-builder arguments desugars to exactly one
`MultipleRecordBuilders` marker node replacing that call site (the result is
that single marker wrapping the original call, produced as data rather than
a panic, and the second builder is never even examined); a sibling subtree
of such a call in the same top-level expression is still desugared normally;
and a record builder outside argument position desugars to an
`UnappliedRecordBuilder` marker node. -/
theorem desugar_record_builder_markers (src mp : String)
    (r rl rf r1 r2 ry : Region) (f y : String)
    (fs1 fs2 : List (Loc RecordBuilderField)) (via : CalledVia)
    (d1 : Loc Expr) (es1 : List (Loc Expr))
    (h1 : desugar_expr src mp (record_builder_arg r1 fs1).closure = some d1)
    (h2 : desugar_expr_list src mp (record_builder_arg r1 fs1).apply_exprs =
      some es1) :
    desugar_expr src mp ⟨r, .apply ⟨rf, .var "" f 0⟩
        [⟨r1, .recordBuilder fs1⟩, ⟨r2, .recordBuilder fs2⟩] via⟩ =
      some ⟨r, .multipleRecordBuilders ⟨r, .apply ⟨rf, .var "" f 0⟩
        [⟨r1, .recordBuilder fs1⟩, ⟨r2, .recordBuilder fs2⟩] via⟩⟩ ∧
    desugar_expr src mp ⟨rl, .list
        [⟨r, .apply ⟨rf, .var "" f 0⟩
          [⟨r1, .recordBuilder fs1⟩, ⟨r2, .recordBuilder fs2⟩] via⟩,
         ⟨ry, .var "" y 0⟩]⟩ =
      some ⟨rl, .list
        [⟨r, .multipleRecordBuilders ⟨r, .apply ⟨rf, .var "" f 0⟩
          [⟨r1, .recordBuilder fs1⟩, ⟨r2, .recordBuilder fs2⟩] via⟩⟩,
         ⟨ry, .var "" y 0⟩]⟩ ∧
    desugar_expr src mp ⟨r1, .recordBuilder fs1⟩ =
      some ⟨r1, .unappliedRecordBuilder ⟨r1, .recordBuilder fs1⟩⟩ := by
  have ha : desugar_apply_args src mp ⟨r, .apply ⟨rf, .var "" f 0⟩
      [⟨r1, .recordBuilder fs1⟩, ⟨r2, .recordBuilder fs2⟩] via⟩
      [⟨r1, .recordBuilder fs1⟩, ⟨r2, .recordBuilder fs2⟩] none =
      some (.error ⟨r, .multipleRecordBuilders ⟨r, .apply ⟨rf, .var "" f 0⟩
        [⟨r1, .recordBuilder fs1⟩, ⟨r2, .recordBuilder fs2⟩] via⟩⟩) := by
    rw [desugar_apply_args_eq]
    simp [arg_find_builder, h1, h2, desugar_apply_args_eq]
  have hm : desugar_expr src mp ⟨r, .apply ⟨rf, .var "" f 0⟩
      [⟨r1, .recordBuilder fs1⟩, ⟨r2, .recordBuilder fs2⟩] via⟩ =
      some ⟨r, .multipleRecordBuilders ⟨r, .apply ⟨rf, .var "" f 0⟩
        [⟨r1, .recordBuilder fs1⟩, ⟨r2, .recordBuilder fs2⟩] via⟩⟩ := by
    simp [desugar_expr, ha]
  refine ⟨hm, ?_, ?_⟩
  · simp [desugar_expr, desugar_expr_list, hm, desugar_expr_var]
  · simp [desugar_expr]

/-- Witness for `desugar_record_builder_markers` at a concrete input (empty
first builder, so its synthesized closure is the empty record literal). -/
theorem desugar_record_builder_markers_witness :
    desugar_expr "" "" ⟨⟨0, 9⟩, .apply ⟨⟨0, 1⟩, .var "" "f" 0⟩
        [⟨⟨2, 4⟩, .recordBuilder []⟩, ⟨⟨5, 7⟩, .recordBuilder []⟩] .space⟩ =
      some ⟨⟨0, 9⟩, .multipleRecordBuilders ⟨⟨0, 9⟩,
        .apply ⟨⟨0, 1⟩, .var "" "f" 0⟩
          [⟨⟨2, 4⟩, .recordBuilder []⟩, ⟨⟨5, 7⟩, .recordBuilder []⟩]
          .space⟩⟩ :=
  (desugar_record_builder_markers "" "" ⟨0, 9⟩ ⟨0, 0⟩ ⟨0, 1⟩ ⟨2, 4⟩ ⟨5, 7⟩
    ⟨0, 0⟩ "f" "y" [] [] .space ⟨⟨2, 4⟩, .record []⟩ []
    (by simp [record_builder_arg, record_builder_arg_fields, desugar_expr,
      desugar_field_list])
    (by simp [record_builder_arg, record_builder_arg_fields,
      desugar_expr_list])).1

/-! Helper lemmas towards the record-builder field-count invariant (C5). -/

theorem builder_field_split_label :
    ∀ bf : RecordBuilderField,
      assigned_field_label (builder_field_split bf).1 = builder_field_label bf
  | .value label sp e => by
    simp [builder_field_split, assigned_field_label, builder_field_label]
  | .applyValue label sp1 sp2 e => by
    simp [builder_field_split, assigned_field_label, builder_field_label]
  | .labelOnly label => by
    simp [builder_field_split, assigned_field_label, builder_field_label]
  | .spaceBefore sub sp => by
    simpa [builder_field_split, builder_field_label] using
      builder_field_split_label sub
  | .spaceAfter sub sp => by
    simpa [builder_field_split, builder_field_label] using
      builder_field_split_label sub
  | .malformed m => by
    simp [builder_field_split, assigned_field_label, builder_field_label]

theorem builder_field_split_count :
    ∀ bf : RecordBuilderField,
      countSplitOpt (builder_field_split bf).2 = count_applicative_field bf
  | .value label sp e => by
    simp [builder_field_split, countSplitOpt, count_applicative_field]
  | .applyValue label sp1 sp2 e => by
    simp [builder_field_split, countSplitOpt, count_applicative_field]
  | .labelOnly label => by
    simp [builder_field_split, countSplitOpt, count_applicative_field]
  | .spaceBefore sub sp => by
    simpa [builder_field_split, count_applicative_field] using
      builder_field_split_count sub
  | .spaceAfter sub sp => by
    simpa [builder_field_split, count_applicative_field] using
      builder_field_split_count sub
  | .malformed m => by
    simp [builder_field_split, countSplitOpt, count_applicative_field]

theorem builder_field_split_expr :
    ∀ bf : RecordBuilderField,
      ((builder_field_split bf).2).map (fun p => p.2) =
        applicative_field_expr bf
  | .value label sp e => by
    simp [builder_field_split, applicative_field_expr]
  | .applyValue label sp1 sp2 e => by
    simp [builder_field_split, applicative_field_expr]
  | .labelOnly label => by
    simp [builder_field_split, applicative_field_expr]
  | .spaceBefore sub sp => by
    simpa [builder_field_split, applicative_field_expr] using
      builder_field_split_expr sub
  | .spaceAfter sub sp => by
    simpa [builder_field_split, applicative_field_expr] using
      builder_field_split_expr sub
  | .malformed m => by
    simp [builder_field_split, applicative_field_expr]

theorem record_builder_arg_fields_spec
    (fields : List (Loc RecordBuilderField)) :
    (record_builder_arg_fields fields).2.1.length =
        count_applicative fields ∧
      (record_builder_arg_fields fields).2.2 =
        applicative_field_exprs fields ∧
      (record_builder_arg_fields fields).1.length = fields.length ∧
      (record_builder_arg_fields fields).1.map
          (fun f => assigned_field_label f.value) =
        fields.map (fun f => builder_field_label f.value) := by
  induction fields with
  | nil =>
    simp [record_builder_arg_fields, count_applicative,
      applicative_field_exprs]
  | cons f rest ih =>
    have hlab := builder_field_split_label f.value
    have hcnt := builder_field_split_count f.value
    have hexp := builder_field_split_expr f.value
    rcases f with ⟨fr, fv⟩
    rcases hs : builder_field_split fv with ⟨nf, os⟩
    rw [hs] at hlab hcnt hexp
    rcases hr : record_builder_arg_fields rest with ⟨rfs, names, exprs⟩
    rw [hr] at ih
    simp only at ih hlab hcnt hexp
    rcases os with _ | ⟨label, expr⟩ <;>
      simp only [countSplitOpt, Option.map] at hcnt hexp <;>
      (simp [record_builder_arg_fields, hs, hr, count_applicative,
        applicative_field_exprs, ← hexp, ← hcnt, ← hlab, ih.1, ih.2.1,
        ih.2.2.1, ih.2.2.2];
       try omega)

theorem substField_label (n : String) (a : Expr) :
    ∀ f : AssignedField,
      assigned_field_label (substField n a f) = assigned_field_label f
  | .requiredValue label sp ⟨er, ev⟩ => by
    simp [substField, assigned_field_label]
  | .optionalValue label sp ⟨er, ev⟩ => by
    simp [substField, assigned_field_label]
  | .labelOnly label => by simp [substField, assigned_field_label]
  | .spaceBefore f sp => by
    simpa [substField, assigned_field_label] using substField_label n a f
  | .spaceAfter f sp => by
    simpa [substField, assigned_field_label] using substField_label n a f
  | .malformed s => by simp [substField, assigned_field_label]

theorem substFieldList_spec (n : String) (a : Expr) :
    ∀ fs : List (Loc AssignedField),
      (substFieldList n a fs).length = fs.length ∧
      (substFieldList n a fs).map (fun f => assigned_field_label f.value) =
        fs.map (fun f => assigned_field_label f.value)
  | [] => by simp [substFieldList]
  | ⟨fr, fv⟩ :: rest => by
    have ih := substFieldList_spec n a rest
    simp [substFieldList, substField_label, ih.1, ih.2]

theorem subst_closure_fold (region : Region) (n : String) (a : Expr) :
    ∀ (names : List (Loc String)) (br : Region) (bv : Expr),
      names.foldr
        (fun label body =>
          (⟨region, .closure
              [⟨label.region, .identifier ("#" ++ label.value) 0⟩] body⟩ :
            Loc Expr))
        ⟨br, substExpr n a bv⟩ =
      ⟨(names.foldr
          (fun label body =>
            (⟨region, .closure
                [⟨label.region, .identifier ("#" ++ label.value) 0⟩] body⟩ :
              Loc Expr))
          ⟨br, bv⟩).region,
        substExpr n a (names.foldr
          (fun label body =>
            (⟨region, .closure
                [⟨label.region, .identifier ("#" ++ label.value) 0⟩] body⟩ :
              Loc Expr))
          ⟨br, bv⟩).value⟩
  | [], br, bv => by simp
  | l :: ls, br, bv => by
    have ih := subst_closure_fold region n a ls br bv
    rcases hf : ls.foldr
        (fun label body =>
          (⟨region, .closure
              [⟨label.region, .identifier ("#" ++ label.value) 0⟩] body⟩ :
            Loc Expr))
        ⟨br, bv⟩ with ⟨gr, gv⟩
    rw [hf] at ih
    simp only [List.foldr_cons, ih, hf]
    simp [substExpr]

theorem closure_depth_fold (region : Region) :
    ∀ (names : List (Loc String)) (br : Region)
      (rfs : List (Loc AssignedField)),
      closure_depth ((names.foldr
        (fun label body =>
          (⟨region, .closure
              [⟨label.region, .identifier ("#" ++ label.value) 0⟩] body⟩ :
            Loc Expr))
        ⟨br, .record rfs⟩).value) = names.length
  | [], br, rfs => by simp [closure_depth]
  | l :: ls, br, rfs => by
    have ih := closure_depth_fold region ls br rfs
    simp [closure_depth, ih]

theorem apply_closures_fold (region : Region) :
    ∀ (names : List (Loc String)) (args : List Expr) (br : Region)
      (rfs : List (Loc AssignedField)),
      args.length = names.length →
      ∃ rfs2, apply_closures ((names.foldr
          (fun label body =>
            (⟨region, .closure
                [⟨label.region, .identifier ("#" ++ label.value) 0⟩] body⟩ :
              Loc Expr))
          ⟨br, .record rfs⟩).value) args = some (.record rfs2) ∧
        rfs2.length = rfs.length ∧
        rfs2.map (fun f => assigned_field_label f.value) =
          rfs.map (fun f => assigned_field_label f.value)
  | [], [], br, rfs, _ => by
    refine ⟨rfs, ?_, rfl, rfl⟩
    simp [apply_closures]
  | l :: ls, a :: args, br, rfs, h => by
    have hsub := subst_closure_fold region ("#" ++ l.value) a ls br
      (.record rfs)
    rcases hf : ls.foldr
        (fun label body =>
          (⟨region, .closure
              [⟨label.region, .identifier ("#" ++ label.value) 0⟩] body⟩ :
            Loc Expr))
        ⟨br, .record rfs⟩ with ⟨gr, gv⟩
    rw [hf] at hsub
    have hstep : apply_closures ((((l :: ls).foldr
        (fun label body =>
          (⟨region, .closure
              [⟨label.region, .identifier ("#" ++ label.value) 0⟩] body⟩ :
            Loc Expr))
        ⟨br, .record rfs⟩)).value) (a :: args) =
        apply_closures (substExpr ("#" ++ l.value) a gv) args := by
      simp [List.foldr_cons, hf, apply_closures]
    have hrec := apply_closures_fold region ls args br
      (substFieldList ("#" ++ l.value) a rfs) (by simpa using h)
    simp only [substExpr] at hsub
    have hgv : substExpr ("#" ++ l.value) a gv =
        (ls.foldr
          (fun label body =>
            (⟨region, .closure
                [⟨label.region, .identifier ("#" ++ label.value) 0⟩] body⟩ :
              Loc Expr))
          ⟨br, .record (substFieldList ("#" ++ l.value) a rfs)⟩).value := by
      have := congrArg Loc.value hsub
      simp only at this
      exact this.symm
    obtain ⟨rfs2, hr1, hr2, hr3⟩ := hrec
    refine ⟨rfs2, ?_, ?_, ?_⟩
    · rw [hstep, hgv]
      exact hr1
    · rw [hr2, (substFieldList_spec ("#" ++ l.value) a rfs).1]
    · rw [hr3, (substFieldList_spec ("#" ++ l.value) a rfs).2]
  | [], _ :: _, _, _, h => by simp at h
  | _ :: _, [], _, _, h => by simp at h

theorem applicative_field_expr_count :
    ∀ bf : RecordBuilderField,
      (match applicative_field_expr bf with
        | some _ => 1
        | none => 0) = count_applicative_field bf
  | .value label sp e => by simp [applicative_field_expr, count_applicative_field]
  | .applyValue label sp1 sp2 e => by
    simp [applicative_field_expr, count_applicative_field]
  | .labelOnly label => by simp [applicative_field_expr, count_applicative_field]
  | .spaceBefore sub sp => by
    simpa [applicative_field_expr, count_applicative_field] using
      applicative_field_expr_count sub
  | .spaceAfter sub sp => by
    simpa [applicative_field_expr, count_applicative_field] using
      applicative_field_expr_count sub
  | .malformed m => by simp [applicative_field_expr, count_applicative_field]

theorem applicative_field_exprs_length :
    ∀ fields : List (Loc RecordBuilderField),
      (applicative_field_exprs fields).length = count_applicative fields
  | [] => by simp [applicative_field_exprs, count_applicative]
  | f :: rest => by
    have hc := applicative_field_expr_count f.value
    have ih := applicative_field_exprs_length rest
    rcases he : applicative_field_expr f.value with _ | e <;> rw [he] at hc <;>
      simp [applicative_field_exprs, he, count_applicative, ← hc, ih] <;>
      omega

/-- C5: for a record builder with `k` applicative fields, the closure
synthesized by `record_builder_arg` nests exactly `k` closure levels deep
(one per applicative field, built innermost-first so the first applicative
field binds the outermost closure), the gathered applicative expressions
are exactly the original field expressions in field-declaration order (so
there are `k` of them), and applying the nested closures to any `k`
argument expressions yields a record literal with exactly the original
field count and the original field labels. -/
theorem record_builder_closure_shape (region : Region)
    (fields : List (Loc RecordBuilderField)) :
    closure_depth (record_builder_arg region fields).closure.value =
        count_applicative fields ∧
      (record_builder_arg region fields).apply_exprs =
        applicative_field_exprs fields ∧
      (record_builder_arg region fields).apply_exprs.length =
        count_applicative fields ∧
      (∀ args : List Expr, args.length = count_applicative fields →
        ∃ fs2, apply_closures
            (record_builder_arg region fields).closure.value args =
            some (.record fs2) ∧
          fs2.length = fields.length ∧
          fs2.map (fun f => assigned_field_label f.value) =
            fields.map (fun f => builder_field_label f.value)) := by
  obtain ⟨hcnt, hexprs, hlen, hlab⟩ := record_builder_arg_fields_spec fields
  rcases hf : record_builder_arg_fields fields with ⟨rfs, names, exprs⟩
  rw [hf] at hcnt hexprs hlen hlab
  simp only at hcnt hexprs hlen hlab
  refine ⟨?_, ?_, ?_, ?_⟩
  · simp only [record_builder_arg, hf]
    rw [closure_depth_fold]
    exact hcnt
  · simp only [record_builder_arg, hf]
    exact hexprs
  · simp only [record_builder_arg, hf]
    rw [hexprs]
    exact applicative_field_exprs_length fields
  · intro args hargs
    simp only [record_builder_arg, hf]
    obtain ⟨rfs2, h1, h2, h3⟩ := apply_closures_fold region names args region
      rfs (by rw [hargs, ← hcnt])
    exact ⟨rfs2, h1, h2.trans hlen, h3.trans hlab⟩

/-- Witness for `record_builder_closure_shape` at a concrete builder with
one applicative field and one plain field, applied to one argument. -/
theorem record_builder_closure_shape_witness :
    ∃ fs2, apply_closures
        (record_builder_arg ⟨0, 9⟩
          [⟨⟨1, 3⟩, .applyValue ⟨⟨1, 2⟩, "a"⟩ [] [] ⟨⟨2, 3⟩, .var "" "e1" 0⟩⟩,
           ⟨⟨4, 6⟩, .value ⟨⟨4, 5⟩, "b"⟩ [] ⟨⟨5, 6⟩, .var "" "v" 0⟩⟩]).closure.value
        [.var "" "arg" 0] =
        some (.record fs2) ∧
      fs2.length = 2 ∧
      fs2.map (fun f => assigned_field_label f.value) =
        [some "a", some "b"] := by
  have h := (record_builder_closure_shape ⟨0, 9⟩
    [⟨⟨1, 3⟩, .applyValue ⟨⟨1, 2⟩, "a"⟩ [] [] ⟨⟨2, 3⟩, .var "" "e1" 0⟩⟩,
     ⟨⟨4, 6⟩, .value ⟨⟨4, 5⟩, "b"⟩ [] ⟨⟨5, 6⟩, .var "" "v" 0⟩⟩]).2.2.2
    [.var "" "arg" 0]
    (by simp [count_applicative, count_applicative_field])
  obtain ⟨fs2, h1, h2, h3⟩ := h
  refine ⟨fs2, h1, by simpa using h2, ?_⟩
  rw [h3]
  simp [builder_field_label]

/-! Helper lemmas towards desugaring idempotence on canonical input (C9). -/

theorem canonical_no_builder {strict : Bool} {v : Expr}
    (h : canonicalExpr strict v = true) : arg_find_builder v = none := by
  cases v <;> simp_all [arg_find_builder, canonicalExpr]

mutual

theorem canonical_desugar_expr (src mp : String) :
    ∀ le : Loc Expr, canonicalExpr true le.value = true →
      desugar_expr src mp le = some le
  | ⟨r, .float s⟩, _ => by simp [desugar_expr]
  | ⟨r, .num s⟩, _ => by simp [desugar_expr]
  | ⟨r, .nonBase10Int s b n⟩, _ => by simp [desugar_expr]
  | ⟨r, .singleQuote s⟩, _ => by simp [desugar_expr]
  | ⟨r, .accessorFunction a⟩, _ => by simp [desugar_expr]
  | ⟨r, .var m i sfx⟩, _ => by simp [desugar_expr]
  | ⟨r, .underscore s⟩, _ => by simp [desugar_expr]
  | ⟨r, .malformedIdent s⟩, _ => by simp [desugar_expr]
  | ⟨r, .malformedClosure⟩, _ => by simp [desugar_expr]
  | ⟨r, .precedenceConflict wr p1 p2 o1 o2 e⟩, _ => by simp [desugar_expr]
  | ⟨r, .multipleRecordBuilders e⟩, _ => by simp [desugar_expr]
  | ⟨r, .unappliedRecordBuilder e⟩, _ => by simp [desugar_expr]
  | ⟨r, .tag s⟩, _ => by simp [desugar_expr]
  | ⟨r, .opaqRef s⟩, _ => by simp [desugar_expr]
  | ⟨r, .ingestedFile p ann⟩, _ => by simp [desugar_expr]
  | ⟨r, .crash⟩, _ => by simp [desugar_expr]
  | ⟨r, .str (.plainLine s)⟩, _ => by simp [desugar_expr]
  | ⟨r, .str (.line segments)⟩, h => by
    have ih := canonical_desugar_segs src mp segments
      (by simpa [canonicalExpr, canonicalStrLit] using h)
    simp [desugar_expr, ih]
  | ⟨r, .str (.block lines)⟩, h => by
    have ih := canonical_desugar_seg_lines src mp lines
      (by simpa [canonicalExpr, canonicalStrLit] using h)
    simp [desugar_expr, ih]
  | ⟨r, .tupleAccess sub_expr paths⟩, h => by
    have ih := canonical_desugar_expr src mp ⟨r, sub_expr⟩
      (by simpa [canonicalExpr] using h)
    simp [desugar_expr, ih]
  | ⟨r, .recordAccess sub_expr paths⟩, h => by
    have ih := canonical_desugar_expr src mp ⟨r, sub_expr⟩
      (by simpa [canonicalExpr] using h)
    simp [desugar_expr, ih]
  | ⟨r, .list items⟩, h => by
    have ih := canonical_desugar_expr_list src mp items
      (by simpa [canonicalExpr] using h)
    simp [desugar_expr, ih]
  | ⟨r, .record fields⟩, h => by
    have ih := canonical_desugar_field_list src mp fields
      (by simpa [canonicalExpr] using h)
    simp [desugar_expr, ih]
  | ⟨r, .tuple fields⟩, h => by
    have ih := canonical_desugar_expr_list src mp fields
      (by simpa [canonicalExpr] using h)
    simp [desugar_expr, ih]
  | ⟨r, .recordUpdate ⟨ur, uv⟩ fields⟩, h => by
    have h' : canonicalExpr true uv = true ∧
        canonicalFieldList true fields = true := by
      simpa [canonicalExpr] using h
    have ih1 := canonical_desugar_expr src mp ⟨ur, uv⟩ h'.1
    have ih2 := canonical_desugar_field_list src mp fields h'.2
    simp [desugar_expr, ih1, ih2]
  | ⟨r, .closure loc_patterns ⟨br, bv⟩⟩, h => by
    have h' : canonicalPatList true loc_patterns = true ∧
        canonicalExpr true bv = true := by
      simpa [canonicalExpr] using h
    have ih1 := canonical_desugar_loc_patterns src mp loc_patterns h'.1
    have ih2 := canonical_desugar_expr src mp ⟨br, bv⟩ h'.2
    simp [desugar_expr, ih1, ih2]
  | ⟨r, .backpassing loc_patterns b rt⟩, h => by
    simp [canonicalExpr] at h
  | ⟨r, .recordBuilder fields⟩, h => by
    simp [canonicalExpr] at h
  | ⟨r, .binOps lefts rt⟩, h => by
    simp [canonicalExpr] at h
  | ⟨r, .defs vds rt⟩, h => by
    simp [canonicalExpr] at h
  | ⟨r, .apply ⟨fr, fv⟩ loc_args via⟩, h => by
    have h' : canonicalExpr true fv = true ∧
        canonicalExprList true loc_args = true := by
      simpa [canonicalExpr] using h
    have ih1 := canonical_desugar_expr src mp ⟨fr, fv⟩ h'.1
    have ih2 := canonical_desugar_apply_args src mp
      ⟨r, .apply ⟨fr, fv⟩ loc_args via⟩ loc_args h'.2
    simp [desugar_expr, ih1, ih2]
  | ⟨r, .when ⟨cr, cv⟩ branches⟩, h => by
    have h' : canonicalExpr true cv = true ∧
        canonicalBranchList true branches = true := by
      simpa [canonicalExpr] using h
    have ih1 := canonical_desugar_expr src mp ⟨cr, cv⟩ h'.1
    have ih2 := canonical_desugar_branches src mp branches h'.2
    simp [desugar_expr, ih1, ih2]
  | ⟨r, .unaryOp a op⟩, h => by
    simp [canonicalExpr] at h
  | ⟨r, .spaceBefore inner sp⟩, h => by
    simp [canonicalExpr] at h
  | ⟨r, .spaceAfter inner sp⟩, h => by
    simp [canonicalExpr] at h
  | ⟨r, .parensAround inner⟩, h => by
    have ih := canonical_desugar_expr src mp ⟨r, inner⟩
      (by simpa [canonicalExpr] using h)
    simp [desugar_expr, ih]
  | ⟨r, .if_ if_thens ⟨er, ev⟩⟩, h => by
    have h' : canonicalIfThens true if_thens = true ∧
        canonicalExpr true ev = true := by
      simpa [canonicalExpr] using h
    have ih1 := canonical_desugar_if_thens src mp if_thens h'.1
    have ih2 := canonical_desugar_expr src mp ⟨er, ev⟩ h'.2
    simp [desugar_expr, ih1, ih2]
  | ⟨r, .expect ⟨cr, cv⟩ ⟨kr, kv⟩⟩, h => by
    have h' : canonicalExpr true cv = true ∧
        canonicalExpr true kv = true := by
      simpa [canonicalExpr] using h
    have ih1 := canonical_desugar_expr src mp ⟨cr, cv⟩ h'.1
    have ih2 := canonical_desugar_expr src mp ⟨kr, kv⟩ h'.2
    simp [desugar_expr, ih1, ih2]
  | ⟨r, .dbg c k⟩, h => by
    simp [canonicalExpr] at h
  | ⟨r, .lowLevelDbg l s m k⟩, h => by
    simp [canonicalExpr] at h
termination_by le => esizeExpr le.value
decreasing_by all_goals
  ((try simp only [esizeExpr, esizeExprList, esizeBinopLefts, esizeIfThens,
    esizeBranchList, esizeGuard, esizeStrLit, esizeSegList, esizeSegLines,
    esizeSeg, esizeField, esizeFieldList, esizeBField, esizeBFieldList,
    esizePat, esizePatList, esizeValueDef, esizeValueDefList]); omega)

theorem canonical_desugar_expr_list (src mp : String) :
    ∀ l : List (Loc Expr), canonicalExprList true l = true →
      desugar_expr_list src mp l = some l
  | [], _ => by simp [desugar_expr_list]
  | ⟨er, ev⟩ :: rest, h => by
    have h' : canonicalExpr true ev = true ∧
        canonicalExprList true rest = true := by
      simpa [canonicalExprList] using h
    have ih1 := canonical_desugar_expr src mp ⟨er, ev⟩ h'.1
    have ih2 := canonical_desugar_expr_list src mp rest h'.2
    simp [desugar_expr_list, ih1, ih2]
termination_by l => esizeExprList l
decreasing_by all_goals
  ((try simp only [esizeExpr, esizeExprList, esizeBinopLefts, esizeIfThens,
    esizeBranchList, esizeGuard, esizeStrLit, esizeSegList, esizeSegLines,
    esizeSeg, esizeField, esizeFieldList, esizeBField, esizeBFieldList,
    esizePat, esizePatList, esizeValueDef, esizeValueDefList]); omega)

theorem canonical_desugar_apply_args (src mp : String) :
    ∀ (orig : Loc Expr) (args : List (Loc Expr)),
      canonicalExprList true args = true →
      desugar_apply_args src mp orig args none = some (.ok (args, none))
  | orig, [], _ => by simp [desugar_apply_args_nil]
  | orig, ⟨argr, argv⟩ :: rest, h => by
    have h' : canonicalExpr true argv = true ∧
        canonicalExprList true rest = true := by
      simpa [canonicalExprList] using h
    have hb := canonical_no_builder h'.1
    have ih1 := canonical_desugar_expr src mp ⟨argr, argv⟩ h'.1
    have ih2 := canonical_desugar_apply_args src mp orig rest h'.2
    rw [desugar_apply_args_eq]
    simp [hb, ih1, ih2]
termination_by orig args => esizeExprList args
decreasing_by all_goals
  ((try simp only [esizeExpr, esizeExprList, esizeBinopLefts, esizeIfThens,
    esizeBranchList, esizeGuard, esizeStrLit, esizeSegList, esizeSegLines,
    esizeSeg, esizeField, esizeFieldList, esizeBField, esizeBFieldList,
    esizePat, esizePatList, esizeValueDef, esizeValueDefList]); omega)

theorem canonical_desugar_segs (src mp : String) :
    ∀ segs : List StrSegment, canonicalSegList true segs = true →
      desugar_str_segments src mp segs = some segs
  | [], _ => by simp [desugar_str_segments]
  | .plaintext s :: rest, h => by
    have ih := canonical_desugar_segs src mp rest
      (by simpa [canonicalSegList, canonicalSeg] using h)
    simp [desugar_str_segments, ih]
  | .unicode u :: rest, h => by
    have ih := canonical_desugar_segs src mp rest
      (by simpa [canonicalSegList, canonicalSeg] using h)
    simp [desugar_str_segments, ih]
  | .escapedChar c :: rest, h => by
    have ih := canonical_desugar_segs src mp rest
      (by simpa [canonicalSegList, canonicalSeg] using h)
    simp [desugar_str_segments, ih]
  | .deprecatedInterpolated ⟨lr, lv⟩ :: rest, h => by
    have h' : canonicalExpr true lv = true ∧
        canonicalSegList true rest = true := by
      simpa [canonicalSegList, canonicalSeg] using h
    have ih1 := canonical_desugar_expr src mp ⟨lr, lv⟩ h'.1
    have ih2 := canonical_desugar_segs src mp rest h'.2
    simp [desugar_str_segments, ih1, ih2]
  | .interpolated ⟨lr, lv⟩ :: rest, h => by
    have h' : canonicalExpr true lv = true ∧
        canonicalSegList true rest = true := by
      simpa [canonicalSegList, canonicalSeg] using h
    have ih1 := canonical_desugar_expr src mp ⟨lr, lv⟩ h'.1
    have ih2 := canonical_desugar_segs src mp rest h'.2
    simp [desugar_str_segments, ih1, ih2]
termination_by segs => esizeSegList segs
decreasing_by all_goals
  ((try simp only [esizeExpr, esizeExprList, esizeBinopLefts, esizeIfThens,
    esizeBranchList, esizeGuard, esizeStrLit, esizeSegList, esizeSegLines,
    esizeSeg, esizeField, esizeFieldList, esizeBField, esizeBFieldList,
    esizePat, esizePatList, esizeValueDef, esizeValueDefList]); omega)

theorem canonical_desugar_seg_lines (src mp : String) :
    ∀ ls : List (List StrSegment), canonicalSegLines true ls = true →
      desugar_str_lines src mp ls = some ls
  | [], _ => by simp [desugar_str_lines]
  | l :: rest, h => by
    have h' : canonicalSegList true l = true ∧
        canonicalSegLines true rest = true := by
      simpa [canonicalSegLines] using h
    have ih1 := canonical_desugar_segs src mp l h'.1
    have ih2 := canonical_desugar_seg_lines src mp rest h'.2
    simp [desugar_str_lines, ih1, ih2]
termination_by ls => esizeSegLines ls
decreasing_by all_goals
  ((try simp only [esizeExpr, esizeExprList, esizeBinopLefts, esizeIfThens,
    esizeBranchList, esizeGuard, esizeStrLit, esizeSegList, esizeSegLines,
    esizeSeg, esizeField, esizeFieldList, esizeBField, esizeBFieldList,
    esizePat, esizePatList, esizeValueDef, esizeValueDefList]); omega)

theorem canonical_desugar_field (src mp : String) :
    ∀ f : AssignedField, canonicalField true f = true →
      desugar_field src mp f = some f
  | .requiredValue ⟨lr, lv⟩ spaces ⟨er, ev⟩, h => by
    have ih := canonical_desugar_expr src mp ⟨er, ev⟩
      (by simpa [canonicalField] using h)
    simp [desugar_field, ih]
  | .optionalValue ⟨lr, lv⟩ spaces ⟨er, ev⟩, h => by
    have ih := canonical_desugar_expr src mp ⟨er, ev⟩
      (by simpa [canonicalField] using h)
    simp [desugar_field, ih]
  | .labelOnly l, h => by simp [canonicalField] at h
  | .spaceBefore f sp, h => by simp [canonicalField] at h
  | .spaceAfter f sp, h => by simp [canonicalField] at h
  | .malformed s, _ => by simp [desugar_field]
termination_by f => esizeField f
decreasing_by all_goals
  ((try simp only [esizeExpr, esizeExprList, esizeBinopLefts, esizeIfThens,
    esizeBranchList, esizeGuard, esizeStrLit, esizeSegList, esizeSegLines,
    esizeSeg, esizeField, esizeFieldList, esizeBField, esizeBFieldList,
    esizePat, esizePatList, esizeValueDef, esizeValueDefList]); omega)

theorem canonical_desugar_field_list (src mp : String) :
    ∀ fs : List (Loc AssignedField), canonicalFieldList true fs = true →
      desugar_field_list src mp fs = some fs
  | [], _ => by simp [desugar_field_list]
  | ⟨fr, fv⟩ :: rest, h => by
    have h' : canonicalField true fv = true ∧
        canonicalFieldList true rest = true := by
      simpa [canonicalFieldList] using h
    have ih1 := canonical_desugar_field src mp fv h'.1
    have ih2 := canonical_desugar_field_list src mp rest h'.2
    simp [desugar_field_list, ih1, ih2]
termination_by fs => esizeFieldList fs
decreasing_by all_goals
  ((try simp only [esizeExpr, esizeExprList, esizeBinopLefts, esizeIfThens,
    esizeBranchList, esizeGuard, esizeStrLit, esizeSegList, esizeSegLines,
    esizeSeg, esizeField, esizeFieldList, esizeBField, esizeBFieldList,
    esizePat, esizePatList, esizeValueDef, esizeValueDefList]); omega)

theorem canonical_desugar_loc_patterns (src mp : String) :
    ∀ ps : List (Loc Pattern), canonicalPatList true ps = true →
      desugar_loc_patterns src mp ps = some ps
  | [], _ => by simp [desugar_loc_patterns]
  | ⟨pr, pv⟩ :: rest, h => by
    have h' : canonicalPat true pv = true ∧
        canonicalPatList true rest = true := by
      simpa [canonicalPatList] using h
    have ih1 := canonical_desugar_pattern src mp pv h'.1
    have ih2 := canonical_desugar_loc_patterns src mp rest h'.2
    simp [desugar_loc_patterns, ih1, ih2]
termination_by ps => esizePatList ps
decreasing_by all_goals
  ((try simp only [esizeExpr, esizeExprList, esizeBinopLefts, esizeIfThens,
    esizeBranchList, esizeGuard, esizeStrLit, esizeSegList, esizeSegLines,
    esizeSeg, esizeField, esizeFieldList, esizeBField, esizeBFieldList,
    esizePat, esizePatList, esizeValueDef, esizeValueDefList]); omega)

theorem canonical_desugar_loc_pattern (src mp : String) :
    ∀ lp : Loc Pattern, canonicalPat true lp.value = true →
      desugar_loc_pattern src mp lp = some lp
  | ⟨pr, pv⟩, h => by
    have ih := canonical_desugar_pattern src mp pv (by simpa using h)
    simp [desugar_loc_pattern, ih]
termination_by lp => esizePat lp.value + 1
decreasing_by all_goals
  ((try simp only [esizeExpr, esizeExprList, esizeBinopLefts, esizeIfThens,
    esizeBranchList, esizeGuard, esizeStrLit, esizeSegList, esizeSegLines,
    esizeSeg, esizeField, esizeFieldList, esizeBField, esizeBFieldList,
    esizePat, esizePatList, esizeValueDef, esizeValueDefList]); omega)

theorem canonical_desugar_pattern (src mp : String) :
    ∀ p : Pattern, canonicalPat true p = true →
      desugar_pattern src mp p = some p
  | .identifier i sfx, _ => by simp [desugar_pattern]
  | .tag s, _ => by simp [desugar_pattern]
  | .opaqRef s, _ => by simp [desugar_pattern]
  | .numLiteral s, _ => by simp [desugar_pattern]
  | .nonBase10Literal s b n, _ => by simp [desugar_pattern]
  | .floatLiteral s, _ => by simp [desugar_pattern]
  | .strLiteral lit, _ => by simp [desugar_pattern]
  | .underscore s, _ => by simp [desugar_pattern]
  | .singleQuote s, _ => by simp [desugar_pattern]
  | .listRest a, _ => by simp [desugar_pattern]
  | .malformed s, _ => by simp [desugar_pattern]
  | .malformedIdent s, _ => by simp [desugar_pattern]
  | .qualifiedIdentifier m i, _ => by simp [desugar_pattern]
  | .apply tag arg_patterns, h => by
    have ih := canonical_desugar_loc_patterns src mp arg_patterns
      (by simpa [canonicalPat] using h)
    simp [desugar_pattern, ih]
  | .recordDestructure field_patterns, h => by
    have ih := canonical_desugar_loc_patterns src mp field_patterns
      (by simpa [canonicalPat] using h)
    simp [desugar_pattern, ih]
  | .requiredField name ⟨pr, pv⟩, h => by
    have ih := canonical_desugar_loc_pattern src mp ⟨pr, pv⟩
      (by simpa [canonicalPat] using h)
    simp [desugar_pattern, ih]
  | .optionalField name ⟨er, ev⟩, h => by
    have ih := canonical_desugar_expr src mp ⟨er, ev⟩
      (by simpa [canonicalPat] using h)
    simp [desugar_pattern, ih]
  | .tuple patterns, h => by
    have ih := canonical_desugar_loc_patterns src mp patterns
      (by simpa [canonicalPat] using h)
    simp [desugar_pattern, ih]
  | .list patterns, h => by
    have ih := canonical_desugar_loc_patterns src mp patterns
      (by simpa [canonicalPat] using h)
    simp [desugar_pattern, ih]
  | .as_ ⟨pr, pv⟩ ident, h => by
    have ih := canonical_desugar_loc_pattern src mp ⟨pr, pv⟩
      (by simpa [canonicalPat] using h)
    simp [desugar_pattern, ih]
  | .spaceBefore sub sp, h => by simp [canonicalPat] at h
  | .spaceAfter sub sp, h => by simp [canonicalPat] at h
termination_by p => esizePat p
decreasing_by all_goals
  ((try simp only [esizeExpr, esizeExprList, esizeBinopLefts, esizeIfThens,
    esizeBranchList, esizeGuard, esizeStrLit, esizeSegList, esizeSegLines,
    esizeSeg, esizeField, esizeFieldList, esizeBField, esizeBFieldList,
    esizePat, esizePatList, esizeValueDef, esizeValueDefList]); omega)

theorem canonical_desugar_branches (src mp : String) :
    ∀ bs : List WhenBranch, canonicalBranchList true bs = true →
      desugar_when_branches src mp bs = some bs
  | [], _ => by simp [desugar_when_branches]
  | .mk patterns ⟨vr, vv⟩ none :: rest, h => by
    have h' : canonicalPatList true patterns = true ∧
        canonicalExpr true vv = true ∧
        canonicalBranchList true rest = true := by
      simpa [canonicalBranchList, canonicalGuard, and_assoc] using h
    have ih1 := canonical_desugar_expr src mp ⟨vr, vv⟩ h'.2.1
    have ih2 := canonical_desugar_loc_patterns src mp patterns h'.1
    have ih3 := canonical_desugar_branches src mp rest h'.2.2
    simp [desugar_when_branches, ih1, ih2, ih3]
  | .mk patterns ⟨vr, vv⟩ (some ⟨gr, gv⟩) :: rest, h => by
    have h' : canonicalPatList true patterns = true ∧
        canonicalExpr true vv = true ∧ canonicalExpr true gv = true ∧
        canonicalBranchList true rest = true := by
      simpa [canonicalBranchList, canonicalGuard, and_assoc] using h
    have ih1 := canonical_desugar_expr src mp ⟨vr, vv⟩ h'.2.1
    have ih2 := canonical_desugar_loc_patterns src mp patterns h'.1
    have ihg := canonical_desugar_expr src mp ⟨gr, gv⟩ h'.2.2.1
    have ih3 := canonical_desugar_branches src mp rest h'.2.2.2
    simp [desugar_when_branches, ih1, ih2, ihg, ih3]
termination_by bs => esizeBranchList bs
decreasing_by all_goals
  ((try simp only [esizeExpr, esizeExprList, esizeBinopLefts, esizeIfThens,
    esizeBranchList, esizeGuard, esizeStrLit, esizeSegList, esizeSegLines,
    esizeSeg, esizeField, esizeFieldList, esizeBField, esizeBFieldList,
    esizePat, esizePatList, esizeValueDef, esizeValueDefList]); omega)

theorem canonical_desugar_if_thens (src mp : String) :
    ∀ ts : List (Loc Expr × Loc Expr), canonicalIfThens true ts = true →
      desugar_if_thens src mp ts = some ts
  | [], _ => by simp [desugar_if_thens]
  | (⟨cr, cv⟩, ⟨tr, tv⟩) :: rest, h => by
    have h' : canonicalExpr true cv = true ∧ canonicalExpr true tv = true ∧
        canonicalIfThens true rest = true := by
      simpa [canonicalIfThens, and_assoc] using h
    have ih1 := canonical_desugar_expr src mp ⟨cr, cv⟩ h'.1
    have ih2 := canonical_desugar_expr src mp ⟨tr, tv⟩ h'.2.1
    have ih3 := canonical_desugar_if_thens src mp rest h'.2.2
    simp [desugar_if_thens, ih1, ih2, ih3]
termination_by ts => esizeIfThens ts
decreasing_by all_goals
  ((try simp only [esizeExpr, esizeExprList, esizeBinopLefts, esizeIfThens,
    esizeBranchList, esizeGuard, esizeStrLit, esizeSegList, esizeSegLines,
    esizeSeg, esizeField, esizeFieldList, esizeBField, esizeBFieldList,
    esizePat, esizePatList, esizeValueDef, esizeValueDefList]); omega)

end

/-- C9 counterexample: the claim as stated is false on the code.  Two
derived-syntax-free (claim-canonical, `strict := false`) trees on which
`desugar_expr` does not even produce an output, let alone an idempotent
one: a local-definition block whose definition body is a literal (the
`todo!()` of `unwrap_suffixed_expression`), and a `LowLevelDbg` node (the
`unreachable!("Only exists after desugaring")` arm — which idempotence
must handle, since `LowLevelDbg` is exactly what desugaring a `dbg`
produces). -/
theorem desugar_canonical_identity_counterexample :
    (canonicalExpr false (.defs
        [.body ⟨⟨0, 1⟩, .identifier "x" 0⟩ ⟨⟨4, 5⟩, .num "1"⟩]
        ⟨⟨6, 7⟩, .var "" "x" 0⟩) = true ∧
      desugar_expr "" "" ⟨⟨0, 7⟩, .defs
        [.body ⟨⟨0, 1⟩, .identifier "x" 0⟩ ⟨⟨4, 5⟩, .num "1"⟩]
        ⟨⟨6, 7⟩, .var "" "x" 0⟩⟩ = none) ∧
    (canonicalExpr false (.lowLevelDbg "l" "s"
        ⟨⟨0, 1⟩, .var "" "m" 0⟩ ⟨⟨2, 3⟩, .var "" "k" 0⟩) = true ∧
      desugar_expr "" "" ⟨⟨0, 3⟩, .lowLevelDbg "l" "s"
        ⟨⟨0, 1⟩, .var "" "m" 0⟩ ⟨⟨2, 3⟩, .var "" "k" 0⟩⟩ = none) := by
  refine ⟨⟨?_, ?_⟩, ⟨?_, ?_⟩⟩
  · simp [canonicalExpr, canonicalValueDefList, canonicalValueDef,
      canonicalPat]
  · simp [desugar_expr, desugar_defs_node_values, desugar_value_def,
      desugar_loc_pattern, desugar_pattern, unwrap_suffixed_expression,
      unwrap_suffixed_defs]
  · simp [canonicalExpr]
  · simp [desugar_expr]

/-- C9 (amended as the counterexample forces): for every tree containing no
derived-syntax variants and additionally no local-definition blocks and no
`LowLevelDbg` nodes (`canonicalExpr true`), desugaring succeeds and is the
identity, hence idempotent: `desugar(t) = some t` and
`desugar(desugar(t)) = desugar(t)`, and the result equals `t` (such trees
contain no trivia to remove). -/
theorem desugar_canonical_identity (src mp : String) (r : Region) (v : Expr)
    (h : canonicalExpr true v = true) :
    desugar_expr src mp ⟨r, v⟩ = some ⟨r, v⟩ ∧
    (desugar_expr src mp ⟨r, v⟩).bind (desugar_expr src mp) =
      desugar_expr src mp ⟨r, v⟩ := by
  have h1 := canonical_desugar_expr src mp ⟨r, v⟩ h
  exact ⟨h1, by simp [h1]⟩

/-- Witness for `desugar_canonical_identity` at a concrete canonical tree:
the application `f x` with a `when` branch body. -/
theorem desugar_canonical_identity_witness :
    desugar_expr "" "" ⟨⟨0, 9⟩, .apply ⟨⟨0, 1⟩, .var "" "f" 0⟩
        [⟨⟨2, 3⟩, .var "" "x" 0⟩,
         ⟨⟨4, 9⟩, .when ⟨⟨5, 6⟩, .var "" "c" 0⟩
           [.mk [⟨⟨7, 8⟩, .identifier "y" 0⟩] ⟨⟨8, 9⟩, .var "" "y" 0⟩
             none]⟩] .space⟩ =
      some ⟨⟨0, 9⟩, .apply ⟨⟨0, 1⟩, .var "" "f" 0⟩
        [⟨⟨2, 3⟩, .var "" "x" 0⟩,
         ⟨⟨4, 9⟩, .when ⟨⟨5, 6⟩, .var "" "c" 0⟩
           [.mk [⟨⟨7, 8⟩, .identifier "y" 0⟩] ⟨⟨8, 9⟩, .var "" "y" 0⟩
             none]⟩] .space⟩ :=
  (desugar_canonical_identity "" "" ⟨0, 9⟩
    (.apply ⟨⟨0, 1⟩, .var "" "f" 0⟩
      [⟨⟨2, 3⟩, .var "" "x" 0⟩,
       ⟨⟨4, 9⟩, .when ⟨⟨5, 6⟩, .var "" "c" 0⟩
         [.mk [⟨⟨7, 8⟩, .identifier "y" 0⟩] ⟨⟨8, 9⟩, .var "" "y" 0⟩
           none]⟩] .space)
    (by simp [canonicalExpr, canonicalExprList, canonicalBranchList,
      canonicalPatList, canonicalPat, canonicalGuard])).1

end Roc
